import Mathlib

/-!
Verification development for the Mparaiso/tiger-go repository.

Part A embeds the tabular row-to-struct mapper of `db/row_struct_mapper.go`
(pure string processing, plus a small value model for the reflection layer).

Part B models the MongoDB-style document manager.  The `mongo` package's
implementation is not part of the source tree (only its test file
`mongo/mongo_test.go` is), so the document manager is modelled from the
specification, as indicated by the doc comments below.

Part C encodes, from `mongo/mongo_test.go`, the entity declarations and
end-to-end scenarios which the claims quote.
-/

namespace Tiger

/-! ### Part A: the `db` row/struct mapper (`db/row_struct_mapper.go`) -/

/-- Association-list lookup used throughout the model (first match wins). -/
def alist {κ : Type} [DecidableEq κ] {α : Type} : List (κ × α) → κ → Option α
  | [], _ => none
  | (k, v) :: rest, key => if key = k then some v else alist rest key

/-- Go's `unicode.IsSpace` on the Latin-1 range, which is what
`strings.TrimSpace` strips (tab, LF, VT, FF, CR, space, NEL, NBSP). -/
def goIsSpace (c : Char) : Bool :=
  c.toNat = 9 || c.toNat = 10 || c.toNat = 11 || c.toNat = 12 || c.toNat = 13 ||
  c.toNat = 32 || c.toNat = 133 || c.toNat = 160

/-- Go `strings.TrimSpace`. -/
def goTrimSpace (s : String) : String :=
  String.mk (((s.data.dropWhile goIsSpace).reverse.dropWhile goIsSpace).reverse)

/-- Go `strings.ToLower` restricted to ASCII letters. -/
def goToLower (s : String) : String :=
  String.mk (s.data.map Char.toLower)

/-- Split a character list on a separator character (Go `strings.Split` with
a one-character separator: `n+1` groups for `n` separators, empty groups
kept). -/
def splitChars (c : Char) : List Char → List (List Char)
  | [] => [[]]
  | x :: rest =>
    let r := splitChars c rest
    if x = c then [] :: r
    else
      match r with
      | [] => [[x]]
      | g :: gs => (x :: g) :: gs

/-- Go `strings.Split` with a one-character separator. -/
def goSplit (c : Char) (s : String) : List String :=
  (splitChars c s.data).map String.mk

/-- Go `strings.HasPrefix`. -/
def goStartsWith (s pre : String) : Bool :=
  pre.data.isPrefixOf s.data

/-- Drop the first `n` characters of a string (Go slicing `s[n:]` for the
ASCII prefixes used here). -/
def goDropChars (s : String) (n : Nat) : String :=
  String.mk (s.data.drop n)

/-- `SQLStructTag` of `db/row_struct_mapper.go`. -/
structure SQLStructTag where
  ColumnName : String
  PersistZeroValue : Bool
deriving DecidableEq, Repr

/-- One iteration of the loop body of `SQLStructTagBuilder.BuildFromString`:
trim the item, record a `column:` value (case-sensitive, trimmed remainder),
and set `PersistZeroValue` on a case-insensitive `persistzerovalue` item. -/
def tagStep (tag : SQLStructTag) (item0 : String) : SQLStructTag :=
  let item := goTrimSpace item0
  let tag1 :=
    if goStartsWith item "column:" then
      { tag with ColumnName := goTrimSpace (goDropChars item 7) }
    else tag
  if goTrimSpace (goToLower item) = "persistzerovalue" then
    { tag1 with PersistZeroValue := true }
  else tag1

/-- `SQLStructTagBuilder.BuildFromString`: split on commas and fold the loop
body over the items (the logger calls have no effect on the result). -/
def BuildFromString (data : String) : SQLStructTag :=
  (goSplit ',' data).foldl tagStep { ColumnName := "", PersistZeroValue := false }

/-- Whether an item of the split tag string triggers `PersistZeroValue`. -/
def pzvItem (i : String) : Bool :=
  goTrimSpace (goToLower (goTrimSpace i)) == "persistzerovalue"

/-- Second definition, following the claim's words: the column name is the
trimmed remainder of the last `column:`-prefixed item, if any. -/
def specLastColumn (items : List String) : String :=
  match (items.map goTrimSpace).reverse.find? (fun it => goStartsWith it "column:") with
  | some it => goTrimSpace (goDropChars it 7)
  | none => ""

/-- A struct field as the reflection layer sees it: its declared name, whether
`reflect` can set it (it is exported), and the value of its `sql` struct tag. -/
structure GoField where
  name : String
  canSet : Bool
  sqlTag : String
deriving DecidableEq, Repr

/-- A Go value as seen through `reflect.ValueOf`: a struct (a list of fields),
a pointer to another value, or anything else. -/
inductive RVal where
  | structV (fields : List GoField)
  | ptrV (v : RVal)
  | otherV
deriving DecidableEq, Repr

/-- `reflect.Indirect`: dereference one level of pointer, else identity. -/
def indirect : RVal → RVal
  | RVal.ptrV v => v
  | v => v

/-- The map key `CreateTagMapperFunc` uses for a field: the tag's column name
when non-empty, otherwise the declared field name. -/
def tagKey (f : GoField) : String :=
  if (BuildFromString f.sqlTag).ColumnName = "" then f.name
  else (BuildFromString f.sqlTag).ColumnName

/-- The map `m` built by `CreateTagMapperFunc`; a Go map insert overwrites, so
later fields shadow earlier ones, which cons-ing onto the front models. -/
def buildTagMap (fields : List GoField) : List (String × String) :=
  fields.foldl (fun m f => (tagKey f, f.name) :: m) []

/-- The transform closure returned by `CreateTagMapperFunc`. -/
def tagTransform (fields : List GoField) : String → String :=
  fun str =>
    match alist (buildTagMap fields) str with
    | some r => r
    | none => str

/-- `CreateTagMapperFunc` (with the default `sql` tag name; `GoField.sqlTag`
is the value `Tag.Get("sql")` returns): error unless `reflect.Indirect` of the
argument is a struct, else the tag-mapping transform. -/
def CreateTagMapperFunc (v : RVal) : Except String (String → String) :=
  match indirect v with
  | RVal.structV fields => Except.ok (tagTransform fields)
  | _ => Except.error "Struct expected"

/-- A destination handed to `scanner.Scan` by `MapRowToStruct`: the address of
a named struct field, or the fresh `*[]byte` used to discard an unmatched
column when `ignoreMissingFields` is set. -/
inductive ScanDest where
  | fieldAddr (name : String)
  | discard
deriving DecidableEq, Repr

/-- `reflect.Value.FieldByName` on the flat structs the mapper handles:
the first field with the given name, or none (the zero `Value`). -/
def fieldByName (fields : List GoField) (n : String) : Option GoField :=
  fields.find? (fun f => f.name == n)

/-- The column loop of `MapRowToStruct`, building the `arrayOfResults` scan
destinations; it returns the first error, before `Scan` is ever called. -/
def collectDests (fields : List GoField) (ignore : Bool) (tr : String → String) :
    List String → Except String (List ScanDest)
  | [] => Except.ok []
  | c :: rest =>
    match fieldByName fields (tr c) with
    | none =>
      if ignore then
        match collectDests fields ignore tr rest with
        | Except.ok ds => Except.ok (ScanDest.discard :: ds)
        | Except.error e => Except.error e
      else Except.error ("No field found for column " ++ tr c)
    | some f =>
      if f.canSet then
        match collectDests fields ignore tr rest with
        | Except.ok ds => Except.ok (ScanDest.fieldAddr f.name :: ds)
        | Except.error e => Except.error e
      else Except.error ("Unexported field " ++ tr c ++ " cannot be set")

/-- The `noop` transform of `db/row_struct_mapper.go`. -/
def noop (s : String) : String := s

/-- `MapRowToStruct`.  The scanner is abstract: a result `Except.ok ds` means
the function reaches `scanner.Scan` and passes it exactly the destinations
`ds` (in column order); `Except.error e` means it returns the error `e`
without calling `Scan`.  Only `transforms[0]` is ever applied, with `noop` as
the default, exactly as in the source. -/
def MapRowToStruct (columns : List String) (dest : RVal) (ignoreMissingFields : Bool)
    (transforms : List (String → String)) : Except String (List ScanDest) :=
  let tr := transforms.headD noop
  match dest with
  | RVal.ptrV (RVal.structV fields) => collectDests fields ignoreMissingFields tr columns
  | RVal.ptrV _ => Except.error "field access on non-struct value"
  | _ => Except.error "Pointer expected"

/-- Whether an `Except` result is a success. -/
def isOkE {α : Type} (x : Except String α) : Bool :=
  match x with
  | Except.ok _ => true
  | Except.error _ => false

/-- Whether a value is a struct or a pointer to a struct (the shapes
`CreateTagMapperFunc` accepts, written out directly rather than through
`indirect`). -/
def structOrPtrStruct : RVal → Bool
  | RVal.structV _ => true
  | RVal.ptrV (RVal.structV _) => true
  | _ => false

/-- Whether a value is a pointer. -/
def isPtrVal : RVal → Bool
  | RVal.ptrV _ => true
  | _ => false

/-! ### Part B: the document manager

Modelled from the spec: the `mongo` package's implementation (the
`DocumentManager`, its tag reader, metadata catalog, identity map, unit of
work and hydrator) is not in the source tree; only `mongo/mongo_test.go` is.
The definitions below follow sections 3-7 of the specification. -/

/-- Object identifier stored in `_id`; `0` plays the role of the unset
identifier ("absent/zero means not yet persisted", spec section 3). -/
abbrev OID := Nat

/-- A reference to a live in-memory entity: an index into the session's
arena.  Two equal handles are the *same* entity (pointer identity). -/
abbrev Handle := Nat

/-- Relationship arity: `referenceOne` or `referenceMany`. -/
inductive RelKind where
  | one
  | many
deriving DecidableEq, Repr

/-- Modelled from the spec (section 3): the descriptor a relationship tag
produces.  `mappedBy = some g` marks the inverse side; `cascade` is kept as
the two booleans it expands to (`all` sets both). -/
structure RelationshipDescriptor where
  kind : RelKind
  target : String
  mappedBy : Option String
  cascadePersist : Bool
  cascadeRemove : Bool
deriving DecidableEq, Repr

/-- A scalar field of a registered type: declared name and the optional
storage-name override of its storage tag. -/
structure FieldMeta where
  name : String
  storageName : Option String
deriving DecidableEq, Repr

/-- Modelled from the spec (section 6, storage tag): the key a field is
stored under — the explicit storage name when given, else the declared field
name verbatim. -/
def storageKey (f : FieldMeta) : String :=
  match f.storageName with
  | some n => n
  | none => f.name

/-- Modelled from the spec (section 3): per-type metadata.  The collection
name is the registered type name itself. -/
structure TypeMeta where
  scalarFields : List FieldMeta
  relationships : List (String × RelationshipDescriptor)
deriving DecidableEq, Repr

/-- A relationship field's in-memory value: one optional reference or an
ordered list of references. -/
inductive RefVal where
  | one (h : Option Handle)
  | many (hs : List Handle)
deriving DecidableEq, Repr

/-- An in-memory entity: identifier, scalar fields (values modelled as
strings) and relationship fields. -/
structure EntityVal where
  id : OID
  scalars : List (String × String)
  refs : List (String × RefVal)
deriving DecidableEq, Repr

/-- A value stored in a document field. -/
inductive DocVal where
  | str (s : String)
  | oid (o : OID)
  | oidList (os : List OID)
  | null
deriving DecidableEq, Repr

/-- A stored document: its `_id` and its named fields. -/
structure Doc where
  id : OID
  fields : List (String × DocVal)
deriving DecidableEq, Repr

/-- The metadata catalog: registered type name to its metadata. -/
abbrev Catalog := List (String × TypeMeta)

/-- The store: collection name (= registered type name) to its documents. -/
abbrev Store := List (String × List Doc)

/-- Modelled from the spec (sections 3-5): a document-manager session — the
catalog, the store behind the driver, the arena of live entities (handles
index it), the identity map, the stage tables of the unit of work, and the
identifier generator.  Dirty detection and the `scheduledUpdate` table are
left out (spec section 9 records them as an open question); the driver never
fails in the model, so `Flush` always succeeds. -/
structure Session where
  catalog : Catalog
  store : Store
  arena : List (String × EntityVal)
  identityMap : List ((String × OID) × Handle)
  scheduledInsert : List Handle
  scheduledRemove : List Handle
  nextOID : OID
deriving DecidableEq, Repr

/-- The documents of a collection (empty when absent). -/
def collOf (st : Store) (T : String) : List Doc :=
  (alist st T).getD []

/-- Replace a collection's document list. -/
def setColl (st : Store) (T : String) (docs : List Doc) : Store :=
  (T, docs) :: st.filter (fun p => p.1 ≠ T)

/-- Upsert a document into a collection: any document with the same `_id` is
replaced (spec section 4.3 marks persisted entities for upsert). -/
def storePut (st : Store) (T : String) (d : Doc) : Store :=
  setColl st T ((collOf st T).filter (fun d0 => d0.id ≠ d.id) ++ [d])

/-- Delete the document with the given `_id` from a collection. -/
def storeDel (st : Store) (T : String) (o : OID) : Store :=
  setColl st T ((collOf st T).filter (fun d0 => d0.id ≠ o))

/-- The handles a relationship field value references. -/
def childHandles : Option RefVal → List Handle
  | some (RefVal.one (some h)) => [h]
  | some (RefVal.many hs) => hs
  | _ => []

/-- Modelled from the spec (section 4.3, cascade on persist): the referenced
entities of every owning relationship whose cascade includes `persist`. -/
def cascadePersistChildren (meta : TypeMeta) (e : EntityVal) : List Handle :=
  meta.relationships.foldr
    (fun fr acc =>
      if fr.2.mappedBy.isNone && fr.2.cascadePersist then
        childHandles (alist e.refs fr.1) ++ acc
      else acc) []

/-- Modelled from the spec (section 4.3, cascade on remove): the referenced
entities of every owning relationship whose cascade includes `remove`. -/
def cascadeRemoveChildren (meta : TypeMeta) (e : EntityVal) : List Handle :=
  meta.relationships.foldr
    (fun fr acc =>
      if fr.2.mappedBy.isNone && fr.2.cascadeRemove then
        childHandles (alist e.refs fr.1) ++ acc
      else acc) []

/-- Modelled from the spec (sections 4.3 and 4.5): the staging step of
`Persist` on one not-yet-staged entity — assign a fresh identifier
immediately if the identity is zero, register the entity in the identity map
(insert is exclusive), and put it in `scheduledInsert`. -/
def stageInsert (s : Session) (h : Handle) (T : String) (e : EntityVal) : Session :=
  let newId := if e.id = 0 then s.nextOID else e.id
  { s with
    arena := s.arena.set h (T, { e with id := newId })
    nextOID := if e.id = 0 then s.nextOID + 1 else s.nextOID
    scheduledInsert := h :: s.scheduledInsert
    identityMap :=
      match alist s.identityMap (T, newId) with
      | none => ((T, newId), h) :: s.identityMap
      | some _ => s.identityMap }

/-- Modelled from the spec (section 4.3, `Persist`): process a worklist of
entities to stage for upsert.  An entity not yet staged is staged through
`stageInsert` and the referenced entities of its persist-cascading owning
relationships are enqueued (their referenced handles do not depend on the
just-assigned identifier, so the cascade is read off the entity as it was).
Re-entering an already staged entity is a no-op, which breaks cycles.  The
explicit budget only bounds the recursion; `Persist` passes one large enough
for the whole cascade. -/
def persistAll : Nat → Session → List Handle → Session
  | 0, s, _ => s
  | Nat.succ _, s, [] => s
  | Nat.succ fuel, s, h :: rest =>
    if h ∈ s.scheduledInsert then persistAll fuel s rest
    else
      match s.arena.get? h with
      | none => persistAll fuel s rest
      | some (T, e) =>
        match alist s.catalog T with
        | none => persistAll fuel (stageInsert s h T e) rest
        | some meta =>
          persistAll fuel (stageInsert s h T e) (rest ++ cascadePersistChildren meta e)

/-- How many entities the persist cascade of one arena entry can enqueue. -/
def entityChildCount (cat : Catalog) (T : String) (e : EntityVal) : Nat :=
  match alist cat T with
  | none => 0
  | some meta => (cascadePersistChildren meta e).length

/-- A bound on everything any persist cascade in the session can enqueue. -/
def sessionChildBound (s : Session) : Nat :=
  (s.arena.map (fun te => entityChildCount s.catalog te.1 te.2)).sum

/-- Modelled from the spec (section 4.3): `Persist(entity)` — stage the
entity and its persist-cascade closure for upsert. -/
def Persist (s : Session) (h : Handle) : Session :=
  persistAll (sessionChildBound s + 2) s [h]

/-- How many entities the remove cascade of one arena entry can enqueue. -/
def entityRemoveCount (cat : Catalog) (T : String) (e : EntityVal) : Nat :=
  match alist cat T with
  | none => 0
  | some meta => (cascadeRemoveChildren meta e).length

/-- A bound on everything any remove cascade in the session can enqueue. -/
def sessionRemoveBound (s : Session) : Nat :=
  (s.arena.map (fun te => entityRemoveCount s.catalog te.1 te.2)).sum

/-- Modelled from the spec (section 4.3, `Remove` and cascade on remove):
process a worklist of entities to stage for deletion, propagating along
owning relationships whose cascade includes `remove`. -/
def removeAll : Nat → Session → List Handle → Session
  | 0, s, _ => s
  | Nat.succ _, s, [] => s
  | Nat.succ fuel, s, h :: rest =>
    if h ∈ s.scheduledRemove then removeAll fuel s rest
    else
      match s.arena.get? h with
      | none => removeAll fuel s rest
      | some (T, e) =>
        let s1 : Session := { s with scheduledRemove := h :: s.scheduledRemove }
        match alist s.catalog T with
        | none => removeAll fuel s1 rest
        | some meta => removeAll fuel s1 (rest ++ cascadeRemoveChildren meta e)

/-- Modelled from the spec (section 4.3): `Remove(entity)` — stage the entity
and its remove-cascade closure for deletion. -/
def Remove (s : Session) (h : Handle) : Session :=
  removeAll (sessionRemoveBound s + 2) s [h]

/-- Modelled from the spec (section 4.3, document serialization): the stored
value of an owning relationship field — the referenced entity's identifier
(or null), or the ordered list of identifiers. -/
def serializeRefVal (arena : List (String × EntityVal)) (rd : RelationshipDescriptor)
    (rv : Option RefVal) : DocVal :=
  match rd.kind, rv with
  | RelKind.one, some (RefVal.one (some h)) =>
    match arena.get? h with
    | some te => DocVal.oid te.2.id
    | none => DocVal.null
  | RelKind.one, _ => DocVal.null
  | RelKind.many, some (RefVal.many hs) =>
    DocVal.oidList (hs.filterMap (fun h => (arena.get? h).map (fun te => te.2.id)))
  | RelKind.many, _ => DocVal.oidList []

/-- Modelled from the spec (section 4.3, document serialization): identity
field becomes `_id`, scalar fields are stored under their storage key, owning
relationship fields under the field name as identifiers, and inverse-side
fields are omitted. -/
def serializeEntity (cat : Catalog) (arena : List (String × EntityVal))
    (T : String) (e : EntityVal) : Doc :=
  match alist cat T with
  | none => { id := e.id, fields := [] }
  | some meta =>
    { id := e.id
      fields :=
        meta.scalarFields.map
          (fun f => (storageKey f, DocVal.str ((alist e.scalars f.name).getD "")))
        ++ meta.relationships.filterMap
          (fun fr =>
            if fr.2.mappedBy.isNone then
              some (fr.1, serializeRefVal arena fr.2 (alist e.refs fr.1))
            else none) }

/-- Write the staged inserts to the store, oldest staging first. -/
def flushInserts (s : Session) (hs : List Handle) (st : Store) : Store :=
  hs.foldr
    (fun h acc =>
      match s.arena.get? h with
      | some (T, e) => storePut acc T (serializeEntity s.catalog s.arena T e)
      | none => acc) st

/-- Apply the staged removes to the store. -/
def flushRemoves (s : Session) (hs : List Handle) (st : Store) : Store :=
  hs.foldr
    (fun h acc =>
      match s.arena.get? h with
      | some (T, e) => storeDel acc T e.id
      | none => acc) st

/-- Drop the identity-map entries of the removed entities (spec section 4.5:
removal from the map occurs on flush of a scheduled remove). -/
def purgeMap (s : Session) (hs : List Handle)
    (m : List ((String × OID) × Handle)) : List ((String × OID) × Handle) :=
  hs.foldr
    (fun h acc =>
      match s.arena.get? h with
      | some (T, e) => acc.filter (fun kv => kv.1 ≠ (T, e.id))
      | none => acc) m

/-- Modelled from the spec (section 4.3, flush order): apply inserts, then
(no updates are modelled) removes, clear the stage tables and purge removed
entities from the identity map.  The modelled driver never fails, so a flush
is always the "successful `Flush()`" of the claims. -/
def Flush (s : Session) : Session :=
  let st1 := flushInserts s s.scheduledInsert s.store
  let st2 := flushRemoves s s.scheduledRemove st1
  { s with
    store := st2
    identityMap := purgeMap s s.scheduledRemove s.identityMap
    scheduledInsert := []
    scheduledRemove := [] }

/-- Empty metadata, used where the spec leaves hydration of an unregistered
target unresolvable (spec section 7, IntegrityError). -/
def emptyMeta : TypeMeta :=
  { scalarFields := [], relationships := [] }

/-- Modelled from the spec (section 4.4, step 2): populate the scalar fields
of a fresh entity from a document, reading each under its storage key. -/
def readScalars (meta : TypeMeta) (d : Doc) : List (String × String) :=
  meta.scalarFields.filterMap
    (fun f =>
      match alist d.fields (storageKey f) with
      | some (DocVal.str v) => some (f.name, v)
      | _ => none)

/-- Whether a document satisfies a pass-through filter: every filter entry
must equal the document's field of the same key (spec section 4.4, filters
are passed to the driver unchanged). -/
def docMatches (filt : List (String × DocVal)) (d : Doc) : Bool :=
  filt.all (fun kv => alist d.fields kv.1 == some kv.2)

/-- Modelled from the spec (section 4.4, inverse side): whether a document of
the owning collection points back at `myId` through owning field `g` — for
`referenceOne` by equality, for `referenceMany` by membership. -/
def owningFieldPoints (g : String) (k : RelKind) (myId : OID) (d : Doc) : Bool :=
  match k, alist d.fields g with
  | RelKind.one, some (DocVal.oid o) => o == myId
  | RelKind.many, some (DocVal.oidList os) => os.contains myId
  | _, _ => false

/-- Replace the relationship fields of the entity at a handle. -/
def updateRefs (s : Session) (h : Handle) (refs : List (String × RefVal)) : Session :=
  match s.arena.get? h with
  | some (T, e) => { s with arena := s.arena.set h (T, { e with refs := refs }) }
  | none => s

mutual

/-- Modelled from the spec (section 4.4): hydrate one document.  If the
`(type, _id)` pair is in the identity map the existing managed entity is
returned unchanged (step 1); otherwise a fresh entity is created, its scalar
fields populated, the entity registered in the identity map *before* the
references are resolved (step 2, breaking cycles), and every relationship
field resolved eagerly (step 3).  The budget bounds the recursion of the
shallow embedding; every re-entry through the identity map is free. -/
def hydrateDoc : Nat → Session → String → Doc → Session × Handle
  | 0, s, _, _ => (s, s.arena.length)
  | Nat.succ fuel, s, T, d =>
    match alist s.identityMap (T, d.id) with
    | some h => (s, h)
    | none =>
      let meta := (alist s.catalog T).getD emptyMeta
      let h := s.arena.length
      let e0 : EntityVal := { id := d.id, scalars := readScalars meta d, refs := [] }
      let s1 : Session :=
        { s with
          arena := s.arena ++ [(T, e0)]
          identityMap := ((T, d.id), h) :: s.identityMap }
      let sr := resolveRels fuel s1 d meta.relationships
      (updateRefs sr.1 h sr.2, h)

/-- Resolve the relationship fields of a document in declaration order. -/
def resolveRels : Nat → Session → Doc → List (String × RelationshipDescriptor) →
    Session × List (String × RefVal)
  | 0, s, _, _ => (s, [])
  | Nat.succ _, s, _, [] => (s, [])
  | Nat.succ fuel, s, d, fr :: rest =>
    let sv := resolveRel fuel s d fr.1 fr.2
    let sr := resolveRels fuel sv.1 d rest
    (sr.1, (fr.1, sv.2) :: sr.2)

/-- Modelled from the spec (section 4.4, step 3): resolve one relationship
field.  Owning `referenceOne`: identity map, else `FindID` on the target,
null when not found (non-fatal).  Owning `referenceMany`: each identifier in
order, omitting unresolvable entries.  Inverse side (`mappedBy = g`): query
the owning collection for documents whose field `g` points back, hydrate each
match, and take the list (or its first element for `referenceOne`). -/
def resolveRel : Nat → Session → Doc → String → RelationshipDescriptor →
    Session × RefVal
  | 0, s, _, _, _ => (s, RefVal.one none)
  | Nat.succ fuel, s, d, fname, rd =>
    match rd.mappedBy with
    | none =>
      match rd.kind with
      | RelKind.one =>
        match alist d.fields fname with
        | some (DocVal.oid o) =>
          let so := resolveOid fuel s rd.target o
          (so.1, RefVal.one so.2)
        | _ => (s, RefVal.one none)
      | RelKind.many =>
        match alist d.fields fname with
        | some (DocVal.oidList os) =>
          let so := resolveOids fuel s rd.target os
          (so.1, RefVal.many so.2)
        | _ => (s, RefVal.many [])
    | some g =>
      let targetMeta := (alist s.catalog rd.target).getD emptyMeta
      match alist targetMeta.relationships g with
      | none =>
        (s, match rd.kind with
            | RelKind.one => RefVal.one none
            | RelKind.many => RefVal.many [])
      | some rdT =>
        let ms := (collOf s.store rd.target).filter (owningFieldPoints g rdT.kind d.id)
        let sh := hydrateList fuel s rd.target ms
        match rd.kind with
        | RelKind.one => (sh.1, RefVal.one sh.2.head?)
        | RelKind.many => (sh.1, RefVal.many sh.2)

/-- Resolve one stored identifier: identity map first, then the store. -/
def resolveOid : Nat → Session → String → OID → Session × Option Handle
  | 0, s, _, _ => (s, none)
  | Nat.succ fuel, s, T, o =>
    match alist s.identityMap (T, o) with
    | some h => (s, some h)
    | none =>
      match (collOf s.store T).find? (fun d0 => d0.id == o) with
      | some d0 =>
        let sh := hydrateDoc fuel s T d0
        (sh.1, some sh.2)
      | none => (s, none)

/-- Resolve a stored identifier list in order, omitting unresolvable ids. -/
def resolveOids : Nat → Session → String → List OID → Session × List Handle
  | 0, s, _, _ => (s, [])
  | Nat.succ _, s, _, [] => (s, [])
  | Nat.succ fuel, s, T, o :: rest =>
    let so := resolveOid fuel s T o
    let sr := resolveOids fuel so.1 T rest
    (sr.1,
      match so.2 with
      | some h => h :: sr.2
      | none => sr.2)

/-- Hydrate a list of documents in order. -/
def hydrateList : Nat → Session → String → List Doc → Session × List Handle
  | 0, s, _, _ => (s, [])
  | Nat.succ _, s, _, [] => (s, [])
  | Nat.succ fuel, s, T, d :: rest =>
    let sh := hydrateDoc fuel s T d
    let sr := hydrateList fuel sh.1 T rest
    (sr.1, sh.2 :: sr.2)

end

/-- A generous hydration budget for the public read operations. -/
def findFuel (s : Session) : Nat :=
  (s.store.map (fun c => (c.2.map (fun d => d.fields.length + 4)).sum)).sum +
    s.arena.length + 8

/-- The error kinds of the read operations the claims mention. -/
inductive OdmErr where
  | notFound
  | unregistered
deriving DecidableEq, Repr

/-- Modelled from the spec (section 4.4): `FindID(id, out)` — exact `_id`
lookup in the type's collection, then hydration of the match; the sentinel
NotFound error when no document matches. -/
def FindID (s : Session) (T : String) (o : OID) : Session × Except OdmErr Handle :=
  match alist s.catalog T with
  | none => (s, Except.error OdmErr.unregistered)
  | some _ =>
    match (collOf s.store T).find? (fun d0 => d0.id == o) with
    | none => (s, Except.error OdmErr.notFound)
    | some d =>
      let sh := hydrateDoc (findFuel s) s T d
      (sh.1, Except.ok sh.2)

/-- Modelled from the spec (section 4.4): `FindOne(filter, out)` — first
match of a pass-through filter, hydrated. -/
def FindOne (s : Session) (T : String) (filt : List (String × DocVal)) :
    Session × Except OdmErr Handle :=
  match alist s.catalog T with
  | none => (s, Except.error OdmErr.unregistered)
  | some _ =>
    match (collOf s.store T).find? (docMatches filt) with
    | none => (s, Except.error OdmErr.notFound)
    | some d =>
      let sh := hydrateDoc (findFuel s) s T d
      (sh.1, Except.ok sh.2)

/-- Modelled from the spec (section 4.4): `FindBy(filter, outSlice)` — all
matches of a pass-through filter, hydrated in store order. -/
def FindBy (s : Session) (T : String) (filt : List (String × DocVal)) :
    Session × List Handle :=
  hydrateList (findFuel s) s T ((collOf s.store T).filter (docMatches filt))

/-- Modelled from the spec (section 4.4): `FindAll(outSlice)`. -/
def FindAll (s : Session) (T : String) : Session × List Handle :=
  FindBy s T []

/-- Whether a read result is the NotFound sentinel. -/
def isNotFound : Except OdmErr Handle → Bool
  | Except.error OdmErr.notFound => true
  | _ => false

/-- Whether a read succeeded. -/
def isFound : Except OdmErr Handle → Bool
  | Except.ok _ => true
  | _ => false

/-- The handle a successful read returned. -/
def foundHandle : Except OdmErr Handle → Option Handle
  | Except.ok h => some h
  | Except.error _ => none

/-! #### The relationship tag reader (spec section 4.1) -/

/-- Modelled from the spec (section 4.1): a cascade value expands to the
(persist, remove) pair; `all` sets both.  The match is case-insensitive: the
source tests register fields tagged `cascade:Persist` and `cascade:all`
successfully. -/
def parseCascadeVal (v : String) : Option (Bool × Bool) :=
  if goToLower v = "persist" then some (true, false)
  else if goToLower v = "remove" then some (false, true)
  else if goToLower v = "all" then some (true, true)
  else none

/-- The draft a tag reader accumulates while walking the key-value list. -/
structure TagDraft where
  target : Option String
  mappedBy : Option String
  cascadePersist : Bool
  cascadeRemove : Bool
deriving DecidableEq, Repr

/-- Modelled from the spec (section 4.1): process the key-value list of a
relationship tag.  A key seen twice is an error, an unknown key is an error,
and a `cascade` key needs a recognized value. -/
def applyKVs : List (String × String) → List String → TagDraft →
    Except String TagDraft
  | [], _, acc => Except.ok acc
  | (k, v) :: rest, seen, acc =>
    if k ∈ seen then Except.error ("duplicate key " ++ k)
    else if k = "targetDocument" then
      applyKVs rest (k :: seen) { acc with target := some v }
    else if k = "mappedBy" then
      applyKVs rest (k :: seen) { acc with mappedBy := some v }
    else if k = "cascade" then
      match parseCascadeVal v with
      | some c =>
        applyKVs rest (k :: seen) { acc with cascadePersist := c.1, cascadeRemove := c.2 }
      | none => Except.error ("unknown cascade value " ++ v)
    else Except.error ("unknown key " ++ k)

/-- The empty draft the tag reader starts from. -/
def emptyDraft : TagDraft :=
  { target := none, mappedBy := none, cascadePersist := false, cascadeRemove := false }

/-- Modelled from the spec (section 4.1): finish a descriptor of the given
kind from the key-value list; a missing `targetDocument` is fatal. -/
def finishDescriptor (k : RelKind) (kvs : List (String × String)) :
    Except String RelationshipDescriptor :=
  match applyKVs kvs [] emptyDraft with
  | Except.error e => Except.error e
  | Except.ok d =>
    match d.target with
    | none => Except.error "missing targetDocument"
    | some t =>
      Except.ok
        { kind := k, target := t, mappedBy := d.mappedBy
          cascadePersist := d.cascadePersist, cascadeRemove := d.cascadeRemove }

/-- Modelled from the spec (section 4.1): build a descriptor from the kind
word and the key-value list; the kind must be `referenceOne` or
`referenceMany`. -/
def buildDescriptor (kind : String) (kvs : List (String × String)) :
    Except String RelationshipDescriptor :=
  if kind = "referenceOne" then finishDescriptor RelKind.one kvs
  else if kind = "referenceMany" then finishDescriptor RelKind.many kvs
  else Except.error ("unknown kind " ++ kind)

/-- Modelled from the spec (sections 4.1 and 6): read a relationship tag
string of the form `kind(key:value,key:value,...)`, whitespace inside the
argument list being insignificant, and hand the split pieces to
`buildDescriptor`. -/
def parseTag (s : String) : Except String RelationshipDescriptor :=
  let t := goTrimSpace s
  if t.data.getLast? = some ')' then
    match goSplit '(' t with
    | [kind, rest] =>
      let argStr := goTrimSpace (String.mk rest.data.dropLast)
      let kvs :=
        if argStr = "" then []
        else
          (goSplit ',' argStr).map
            (fun kv =>
              match goSplit ':' kv with
              | [k, v] => (goTrimSpace k, goTrimSpace v)
              | _ => (goTrimSpace kv, ""))
      buildDescriptor (goTrimSpace kind) kvs
    | _ => Except.error "malformed tag"
  else Except.error "malformed tag"

/-- The descriptor of a tag string that is known to be well-formed. -/
def relOf (s : String) : RelationshipDescriptor :=
  match parseTag s with
  | Except.ok d => d
  | Except.error _ =>
    { kind := RelKind.one, target := "", mappedBy := none
      cascadePersist := false, cascadeRemove := false }

/-! ### Part C: the scenarios of `mongo/mongo_test.go`

The entity declarations and the relationship tag strings below are taken
character for character from the test file; identifiers and handles are the
model's stand-ins for `bson.ObjectId` values and Go pointers. -/

/-- `User` of `mongo_test.go` (lines 29-35): scalar fields `Name`, `Email`;
`Posts` and `Role` carry the quoted relationship tags. -/
def userMeta : TypeMeta :=
  { scalarFields := [⟨"Name", none⟩, ⟨"Email", none⟩]
    relationships :=
      [("Posts", relOf "referenceMany(targetDocument:Post,cascade:all)"),
       ("Role", relOf "referenceOne(targetDocument:Role,cascade:Persist)")] }

/-- `Post` of `mongo_test.go` (lines 16-21). -/
def postMeta : TypeMeta :=
  { scalarFields := [⟨"Title", none⟩, ⟨"Body", none⟩, ⟨"Created", none⟩]
    relationships := [] }

/-- `Role` of `mongo_test.go` (lines 23-27); its untagged `Users` slice is
not a relationship and is left out. -/
def roleMeta : TypeMeta :=
  { scalarFields := [⟨"Title", none⟩], relationships := [] }

/-- The user of `TestDocumentManager_Persist`: its identifier is set before
persisting (`bson.NewObjectId()`), modelled by the nonzero id 101; it
references the post (handle 1) and the role (handle 2). -/
def userEntity : EntityVal :=
  { id := 101, scalars := [("Name", "John"), ("Email", "john@example.com")]
    refs := [("Posts", RefVal.many [1]), ("Role", RefVal.one (some 2))] }

/-- The post of `TestDocumentManager_Persist`, not yet persisted (id 0). -/
def postEntity : EntityVal :=
  { id := 0
    scalars := [("Title", "First Post Title"), ("Body", "First Post Body"), ("Created", "now")]
    refs := [] }

/-- The role of `TestDocumentManager_Persist`, not yet persisted (id 0). -/
def roleEntity : EntityVal :=
  { id := 0, scalars := [("Title", "Editor")], refs := [] }

/-- The session of `TestDocumentManager_Persist` after registration: user,
post and role live in memory, nothing staged, nothing stored. -/
def scenario2Start : Session :=
  { catalog := [("User", userMeta), ("Post", postMeta), ("Role", roleMeta)]
    store := []
    arena := [("User", userEntity), ("Post", postEntity), ("Role", roleEntity)]
    identityMap := [], scheduledInsert := [], scheduledRemove := [], nextOID := 1 }

/-- After `dm.Persist(user); dm.Flush()`: the cascade assigns the post id 1
and the role id 2 and stores all three documents. -/
def scenario2Flushed : Session := Flush (Persist scenario2Start 0)

/-- After `dm.Remove(user); dm.Flush()` (`SubTestDocumentManager_Remove`). -/
def scenario2Removed : Session := Flush (Remove scenario2Flushed 0)

/-- `Author` of `mongo_test.go` (lines 153-166): `Name` stored under the
explicit key `Name`; `Articles` is the inverse side mapped by `Author`. -/
def authorMeta : TypeMeta :=
  { scalarFields := [⟨"Name", some "Name"⟩]
    relationships :=
      [("Articles", relOf "referenceMany(targetDocument:Article,mappedBy:Author)")] }

/-- `Tag` of `mongo_test.go` (lines 168-175). -/
def tagMeta : TypeMeta :=
  { scalarFields := [⟨"Name", some "Name"⟩]
    relationships :=
      [("Articles", relOf "referenceMany(targetDocument:Article,mappedBy:Tags)")] }

/-- `Article` of `mongo_test.go` (lines 176-185): owning `Author` reference
and owning `Tags` references with persist cascade. -/
def articleMeta : TypeMeta :=
  { scalarFields := [⟨"Title", some "Title"⟩]
    relationships :=
      [("Author", relOf "referenceOne(targetDocument:Author)"),
       ("Tags", relOf "referenceMany(targetDocument:Tag,cascade:Persist)")] }

/-- `author := &Author{Name: "John Doe"}` of `Example` (handle 0). -/
def authorEntity : EntityVal :=
  { id := 0, scalars := [("Name", "John Doe")], refs := [("Articles", RefVal.many [])] }

/-- `{Name: "go"}` of `Example` (handle 1). -/
def tagGoEntity : EntityVal :=
  { id := 0, scalars := [("Name", "go")], refs := [("Articles", RefVal.many [])] }

/-- `programmingTag := &Tag{Name: "programming"}` of `Example` (handle 2),
shared by both articles. -/
def tagProgEntity : EntityVal :=
  { id := 0, scalars := [("Name", "programming")], refs := [("Articles", RefVal.many [])] }

/-- `article1` (`"Go tiger!"`) of `Example` (handle 3): author handle 0,
tags handles 1 and 2. -/
def article1Entity : EntityVal :=
  { id := 0, scalars := [("Title", "Go tiger!")]
    refs := [("Author", RefVal.one (some 0)), ("Tags", RefVal.many [1, 2])] }

/-- `article2` (`"MongoDB"`) of `Example` (handle 4): author handle 0, the
shared programming tag handle 2. -/
def article2Entity : EntityVal :=
  { id := 0, scalars := [("Title", "MongoDB")]
    refs := [("Author", RefVal.one (some 0)), ("Tags", RefVal.many [2])] }

/-- The session of `Example` after `RegisterMany` and the document
declarations. -/
def scenario4Start : Session :=
  { catalog := [("Article", articleMeta), ("Author", authorMeta), ("Tag", tagMeta)]
    store := []
    arena := [("Author", authorEntity), ("Tag", tagGoEntity), ("Tag", tagProgEntity),
              ("Article", article1Entity), ("Article", article2Entity)]
    identityMap := [], scheduledInsert := [], scheduledRemove := [], nextOID := 1 }

/-- After `Persist(author); Persist(article1); Persist(article2); Flush()` of
`Example`: the tags are staged by the persist cascade alone. -/
def scenario4Flushed : Session :=
  Flush (Persist (Persist (Persist scenario4Start 0) 3) 4)

/-- `FindBy(bson.M{"Title": "MongoDB"}, &articles)` of `Example`. -/
def scenario5Found : Session × List Handle :=
  FindBy scenario4Flushed "Article" [("Title", DocVal.str "MongoDB")]

/-- After `Remove(articles[0]); Flush()` of `Example`. -/
def scenario5Removed : Session :=
  Flush (Remove scenario5Found.1 (scenario5Found.2.headD 99))

/-- The scalar field of the entity at a handle, for reading results back. -/
def entityScalar (s : Session) (h : Handle) (n : String) : Option String :=
  match s.arena.get? h with
  | some te => alist te.2.scalars n
  | none => none

/-- A one-collection session used to exercise hydration from a fresh store
(the `TestMongo` shape: one registered type with two scalar fields). -/
def hydrSession : Session :=
  { catalog := [("Test", { scalarFields := [⟨"Name", none⟩, ⟨"Description", none⟩]
                           relationships := [] })]
    store := [("Test", [{ id := 7, fields := [("Name", DocVal.str "Initial"),
                                              ("Description", DocVal.str "A simple test")] }])]
    arena := [], identityMap := [], scheduledInsert := [], scheduledRemove := [], nextOID := 10 }

/-- The stored document of `hydrSession`. -/
def hydrDoc : Doc :=
  { id := 7, fields := [("Name", DocVal.str "Initial"),
                        ("Description", DocVal.str "A simple test")] }

/-- What every persist step preserves or grows: catalog, store, scheduled
removes and arena size are untouched; staged entities stay staged with their
arena entry intact; every arena entry keeps its type, scalar fields and
relationship fields (only the identifier can be assigned); and identity-map
entries are never lost or rebound. -/
def PersistPres (s r : Session) : Prop :=
  r.catalog = s.catalog
  ∧ r.store = s.store
  ∧ r.scheduledRemove = s.scheduledRemove
  ∧ r.arena.length = s.arena.length
  ∧ (∀ h, h ∈ s.scheduledInsert → h ∈ r.scheduledInsert)
  ∧ (∀ h, h ∈ s.scheduledInsert → r.arena.get? h = s.arena.get? h)
  ∧ (∀ i T e, s.arena.get? i = some (T, e) →
      ∃ e2, r.arena.get? i = some (T, e2) ∧ e2.scalars = e.scalars ∧ e2.refs = e.refs)
  ∧ (∀ k h0, alist s.identityMap k = some h0 → alist r.identityMap k = some h0)

/-! ### Theorems -/

theorem alist_eq_of_mem {κ : Type} [DecidableEq κ] {α : Type} (ps : List (κ × α))
    (k : κ) (v : α) (hmem : (k, v) ∈ ps) (hnd : (ps.map Prod.fst).Nodup) :
    alist ps k = some v := by
  induction ps with
  | nil => cases hmem
  | cons p rest ih =>
    rcases List.mem_cons.mp hmem with h | h
    · cases h
      simp [alist]
    · have hk : k ≠ p.1 := by
        intro he
        have h1 : p.1 ∉ rest.map Prod.fst := (List.nodup_cons.mp hnd).1
        exact h1 (he ▸ List.mem_map.mpr ⟨(k, v), h, rfl⟩)
      simp only [alist, if_neg hk]
      exact ih h (List.nodup_cons.mp hnd).2

theorem alist_eq_none {κ : Type} [DecidableEq κ] {α : Type} (ps : List (κ × α))
    (k : κ) (hmem : k ∉ ps.map Prod.fst) : alist ps k = none := by
  induction ps with
  | nil => rfl
  | cons p rest ih =>
    have hk : k ≠ p.1 := fun he => hmem (he ▸ List.mem_map.mpr ⟨p, List.mem_cons_self p rest, rfl⟩)
    simp only [alist, if_neg hk]
    exact ih (fun h => hmem (List.mem_map.mp h |>.elim fun q hq => List.mem_map.mpr ⟨q, List.mem_cons_of_mem p hq.1, hq.2⟩))

theorem find?_append_split {α : Type} (p : α → Bool) (l1 l2 : List α) :
    (l1 ++ l2).find? p =
      match l1.find? p with
      | some x => some x
      | none => l2.find? p := by
  induction l1 with
  | nil => simp
  | cons x rest ih =>
    cases hx : p x with
    | true =>
      rw [List.cons_append, List.find?_cons_of_pos _ hx, List.find?_cons_of_pos _ hx]
    | false =>
      rw [List.cons_append, List.find?_cons_of_neg _ (by simp [hx]), ih,
        List.find?_cons_of_neg _ (by simp [hx])]

/-! #### Claim C10 -/

theorem tagStep_pzv (t0 : SQLStructTag) (i : String) :
    (tagStep t0 i).PersistZeroValue = (t0.PersistZeroValue || pzvItem i) := by
  unfold tagStep pzvItem
  by_cases h1 : goStartsWith (goTrimSpace i) "column:" <;>
    by_cases h2 : goTrimSpace (goToLower (goTrimSpace i)) = "persistzerovalue" <;>
      simp [h1, h2]

theorem tagStep_col (t0 : SQLStructTag) (i : String) :
    (tagStep t0 i).ColumnName =
      if goStartsWith (goTrimSpace i) "column:" then goTrimSpace (goDropChars (goTrimSpace i) 7)
      else t0.ColumnName := by
  unfold tagStep
  by_cases h1 : goStartsWith (goTrimSpace i) "column:" <;>
    by_cases h2 : goTrimSpace (goToLower (goTrimSpace i)) = "persistzerovalue" <;>
      simp [h1, h2]

theorem foldl_tagStep_pzv (items : List String) (t0 : SQLStructTag) :
    (items.foldl tagStep t0).PersistZeroValue = (t0.PersistZeroValue || items.any pzvItem) := by
  induction items generalizing t0 with
  | nil => simp
  | cons i rest ih =>
    rw [List.foldl_cons, List.any_cons, ih, tagStep_pzv, Bool.or_assoc]

theorem foldl_tagStep_col (items : List String) (t0 : SQLStructTag) :
    (items.foldl tagStep t0).ColumnName =
      match (items.map goTrimSpace).reverse.find? (fun it => goStartsWith it "column:") with
      | some it => goTrimSpace (goDropChars it 7)
      | none => t0.ColumnName := by
  induction items generalizing t0 with
  | nil => simp
  | cons i rest ih =>
    rw [List.foldl_cons, ih, List.map_cons, List.reverse_cons, find?_append_split]
    cases hfind : (rest.map goTrimSpace).reverse.find? (fun it => goStartsWith it "column:") with
    | some it => simp
    | none =>
      by_cases hp : goStartsWith (goTrimSpace i) "column:"
      · simp [List.find?_cons_of_pos, hp, tagStep_col]
      · simp only [tagStep_col, if_neg hp]
        simp [List.find?_cons_of_neg, hp]

/-- Claim C10: `SQLStructTagBuilder.BuildFromString` is total (it is a plain
function on every input string): it splits the tag on commas and trims each
item; an item equal to `persistzerovalue` case-insensitively sets
`PersistZeroValue`, and each item with the case-sensitive `column:` sets
`ColumnName` to the trimmed remainder, the last such item winning. -/
theorem c10_build_from_string (data : String) :
    (BuildFromString data).PersistZeroValue = (goSplit ',' data).any pzvItem
    ∧ (BuildFromString data).ColumnName = specLastColumn (goSplit ',' data) := by
  constructor
  · rw [BuildFromString, foldl_tagStep_pzv]
    simp
  · rw [BuildFromString, foldl_tagStep_col, specLastColumn]

/-! #### Claim C9 -/

theorem foldl_cons_rev {α β : Type} (g : α → β) (l : List α) (init : List β) :
    l.foldl (fun m f => g f :: m) init = (l.map g).reverse ++ init := by
  induction l generalizing init with
  | nil => simp
  | cons x rest ih => simp [List.foldl_cons, ih]

theorem buildTagMap_eq (fields : List GoField) :
    buildTagMap fields = (fields.map (fun f => (tagKey f, f.name))).reverse := by
  rw [buildTagMap, foldl_cons_rev, List.append_nil]

theorem buildTagMap_keys (fields : List GoField) :
    (buildTagMap fields).map Prod.fst = (fields.map tagKey).reverse := by
  have he : (Prod.fst ∘ fun f : GoField => (tagKey f, f.name)) = tagKey := rfl
  rw [buildTagMap_eq, ← List.map_reverse, List.map_map, he, List.map_reverse]

theorem tagTransform_key (fields : List GoField) (f : GoField)
    (hmem : f ∈ fields) (hnd : (fields.map tagKey).Nodup) :
    tagTransform fields (tagKey f) = f.name := by
  have h1 : (tagKey f, f.name) ∈ buildTagMap fields := by
    rw [buildTagMap_eq, List.mem_reverse]
    exact List.mem_map.mpr ⟨f, hmem, rfl⟩
  have h2 : alist (buildTagMap fields) (tagKey f) = some f.name :=
    alist_eq_of_mem _ _ _ h1 (by rw [buildTagMap_keys]; exact List.nodup_reverse.mpr hnd)
  simp [tagTransform, h2]

/-- Claim C9: the transform produced by `CreateTagMapperFunc` maps a column
name equal to a field's `sql`-tag column value to the field's declared name,
maps a tagless field's name to itself, and is the identity elsewhere;
`CreateTagMapperFunc` errors exactly when its argument is not a struct or a
pointer to one.  (On column names the mapping is stated for tag maps whose
keys do not collide, as a Go map keyed by them would otherwise keep only the
last field.) -/
theorem c9_create_tag_mapper (v : RVal) (fields : List GoField)
    (hv : indirect v = RVal.structV fields)
    (hnd : (fields.map tagKey).Nodup) :
    CreateTagMapperFunc v = Except.ok (tagTransform fields)
    ∧ (∀ f ∈ fields, ∀ c, (BuildFromString f.sqlTag).ColumnName = c → c ≠ "" →
        tagTransform fields c = f.name)
    ∧ (∀ f ∈ fields, (BuildFromString f.sqlTag).ColumnName = "" →
        tagTransform fields f.name = f.name)
    ∧ (∀ str, str ∉ fields.map tagKey → tagTransform fields str = str)
    ∧ (∀ w : RVal, structOrPtrStruct w = false →
        CreateTagMapperFunc w = Except.error "Struct expected") := by
  refine ⟨?_, ?_, ?_, ?_, ?_⟩
  · rw [CreateTagMapperFunc, hv]
  · intro f hf c hc hne
    have hk : tagKey f = c := by
      rw [tagKey, hc, if_neg hne]
    rw [← hk]
    exact tagTransform_key fields f hf hnd
  · intro f hf hc
    have hk : tagKey f = f.name := by
      rw [tagKey, hc, if_pos rfl]
    have := tagTransform_key fields f hf hnd
    rwa [hk] at this
  · intro str hstr
    have h2 : alist (buildTagMap fields) str = none := by
      apply alist_eq_none
      rw [buildTagMap_keys, List.mem_reverse]
      exact hstr
    simp [tagTransform, h2]
  · intro w hw
    cases w with
    | structV fs => simp [structOrPtrStruct] at hw
    | otherV => rfl
    | ptrV inner =>
      cases inner with
      | structV fs => simp [structOrPtrStruct] at hw
      | otherV => rfl
      | ptrV w2 => rfl

/-- Closed witness for claim C9's theorem at the struct of the source's own
doc comment (`type Foo struct { Bar ... sql:"column:bar" }`, plus a tagless
field). -/
theorem c9_create_tag_mapper_witness :
    CreateTagMapperFunc (RVal.ptrV (RVal.structV [⟨"Bar", true, "column:bar"⟩, ⟨"Baz", true, ""⟩]))
      = Except.ok (tagTransform [⟨"Bar", true, "column:bar"⟩, ⟨"Baz", true, ""⟩])
    ∧ tagTransform [⟨"Bar", true, "column:bar"⟩, ⟨"Baz", true, ""⟩] "bar" = "Bar"
    ∧ tagTransform [⟨"Bar", true, "column:bar"⟩, ⟨"Baz", true, ""⟩] "Baz" = "Baz"
    ∧ tagTransform [⟨"Bar", true, "column:bar"⟩, ⟨"Baz", true, ""⟩] "zzz" = "zzz"
    ∧ CreateTagMapperFunc RVal.otherV = Except.error "Struct expected" := by
  have h := c9_create_tag_mapper
    (RVal.ptrV (RVal.structV [⟨"Bar", true, "column:bar"⟩, ⟨"Baz", true, ""⟩]))
    [⟨"Bar", true, "column:bar"⟩, ⟨"Baz", true, ""⟩] (by decide) (by decide)
  refine ⟨h.1, ?_, ?_, ?_, h.2.2.2.2 RVal.otherV (by decide)⟩
  · exact h.2.1 ⟨"Bar", true, "column:bar"⟩ (by decide) "bar" (by decide) (by decide)
  · exact h.2.2.1 ⟨"Baz", true, ""⟩ (by decide) (by decide)
  · exact h.2.2.2.1 "zzz" (by decide)

/-! #### Claim C8 -/

theorem collectDests_ignore (fields : List GoField) (tr : String → String)
    (hset : ∀ f ∈ fields, f.canSet = true) (columns : List String) :
    collectDests fields true tr columns =
      Except.ok (columns.map (fun c =>
        match fieldByName fields (tr c) with
        | some f => ScanDest.fieldAddr f.name
        | none => ScanDest.discard)) := by
  induction columns with
  | nil => rfl
  | cons c rest ih =>
    cases hf : fieldByName fields (tr c) with
    | none => simp [collectDests, hf, ih]
    | some f =>
      have hc : f.canSet = true := hset f (List.mem_of_find?_eq_some hf)
      simp [collectDests, hf, hc, ih]

theorem collectDests_strict_err (fields : List GoField) (tr : String → String)
    (hset : ∀ f ∈ fields, f.canSet = true) (columns : List String)
    (hmiss : ∃ c ∈ columns, fieldByName fields (tr c) = none) :
    isOkE (collectDests fields false tr columns) = false := by
  induction columns with
  | nil => obtain ⟨c, hc, _⟩ := hmiss; cases hc
  | cons c rest ih =>
    cases hf : fieldByName fields (tr c) with
    | none => simp [collectDests, hf, isOkE]
    | some f =>
      have hc : f.canSet = true := hset f (List.mem_of_find?_eq_some hf)
      have hrest : ∃ c0 ∈ rest, fieldByName fields (tr c0) = none := by
        obtain ⟨c0, hc0, hn0⟩ := hmiss
        rcases List.mem_cons.mp hc0 with he | hr
        · rw [he] at hn0; rw [hn0] at hf; cases hf
        · exact ⟨c0, hr, hn0⟩
      cases hcd : collectDests fields false tr rest with
      | ok ds =>
        have hbad := ih hrest
        rw [hcd] at hbad
        cases hbad
      | error e => simp [collectDests, hf, hc, hcd, isOkE]

/-- Claim C8: with an abstract scanner — `Except.ok ds` means `Scan` is
called with exactly the destinations `ds`, `Except.error` means the function
returns before calling `Scan` — `MapRowToStruct` (1) errors on every
non-pointer destination; and for a pointer to a struct whose fields are all
settable, (2) errors without reaching `Scan` when some transformed column
matches no field and `ignoreMissingFields` is false, while (3) with
`ignoreMissingFields` true it passes `Scan` a discard destination for each
unmatched column and the field address for every matched one, in column
order. -/
theorem c8_map_row_to_struct (columns : List String) (fields : List GoField)
    (trs : List (String → String)) (ig : Bool) :
    (∀ v : RVal, isPtrVal v = false → isOkE (MapRowToStruct columns v ig trs) = false)
    ∧ ((∀ f ∈ fields, f.canSet = true) →
        ((∃ c ∈ columns, fieldByName fields ((trs.headD noop) c) = none) →
            isOkE (MapRowToStruct columns (RVal.ptrV (RVal.structV fields)) false trs) = false)
        ∧ MapRowToStruct columns (RVal.ptrV (RVal.structV fields)) true trs
            = Except.ok (columns.map (fun c =>
                match fieldByName fields ((trs.headD noop) c) with
                | some f => ScanDest.fieldAddr f.name
                | none => ScanDest.discard))) := by
  constructor
  · intro v hv
    cases v with
    | structV fs => rfl
    | otherV => rfl
    | ptrV inner => simp [isPtrVal] at hv
  · intro hset
    constructor
    · intro hmiss
      exact collectDests_strict_err fields (trs.headD noop) hset columns hmiss
    · exact collectDests_ignore fields (trs.headD noop) hset columns

/-- Closed witness for claim C8's theorem: columns `A`, `b` against a struct
with the single settable field `A`. -/
theorem c8_map_row_to_struct_witness :
    isOkE (MapRowToStruct ["A", "b"] RVal.otherV false []) = false
    ∧ isOkE (MapRowToStruct ["A", "b"] (RVal.ptrV (RVal.structV [⟨"A", true, ""⟩])) false []) = false
    ∧ MapRowToStruct ["A", "b"] (RVal.ptrV (RVal.structV [⟨"A", true, ""⟩])) true []
        = Except.ok [ScanDest.fieldAddr "A", ScanDest.discard] := by
  have h := c8_map_row_to_struct ["A", "b"] [⟨"A", true, ""⟩] [] false
  refine ⟨h.1 RVal.otherV (by decide), (h.2 (by decide)).1 (by decide), ?_⟩
  have h2 := c8_map_row_to_struct ["A", "b"] [⟨"A", true, ""⟩] [] true
  rw [(h2.2 (by decide)).2]
  rfl

/-! #### Claim C7 -/

theorem parseCascadeVal_isSome (v : String) :
    (parseCascadeVal v).isSome = true ↔
      (goToLower v = "persist" ∨ goToLower v = "remove" ∨ goToLower v = "all") := by
  unfold parseCascadeVal
  split_ifs with h1 h2 h3 <;> simp_all

theorem applyKVs_ok_iff (kvs : List (String × String)) : ∀ (seen : List String) (dr : TagDraft),
    isOkE (applyKVs kvs seen dr) = true ↔
      ((∀ kv ∈ kvs, kv.1 = "targetDocument" ∨ kv.1 = "mappedBy" ∨ kv.1 = "cascade")
       ∧ (kvs.map Prod.fst).Nodup
       ∧ (∀ k ∈ kvs.map Prod.fst, k ∉ seen)
       ∧ (∀ kv ∈ kvs, kv.1 = "cascade" → (parseCascadeVal kv.2).isSome = true)) := by
  induction kvs with
  | nil =>
    intro seen dr
    simp [applyKVs, isOkE]
  | cons kv rest ih =>
    intro seen dr
    obtain ⟨k, v⟩ := kv
    by_cases hseen : k ∈ seen
    · rw [applyKVs, if_pos hseen]
      simp only [isOkE]
      constructor
      · intro hh; cases hh
      · rintro ⟨-, -, hns, -⟩
        exact absurd hseen (hns k (by simp))
    · rw [applyKVs, if_neg hseen]
      by_cases h1 : k = "targetDocument"
      · subst h1
        rw [if_pos rfl, ih]
        constructor
        · rintro ⟨ha, hnd, hns, hcv⟩
          refine ⟨?_, ?_, ?_, ?_⟩
          · intro kv hkv
            rcases List.mem_cons.mp hkv with he | hr
            · rw [he]; left; rfl
            · exact ha kv hr
          · rw [List.map_cons, List.nodup_cons]
            refine ⟨?_, hnd⟩
            intro hmem
            exact (hns _ hmem) (List.mem_cons_self _ _)
          · intro k0 hk0
            rcases List.mem_cons.mp hk0 with he | hr
            · rw [he]; exact hseen
            · intro hk0seen
              exact (hns k0 hr) (List.mem_cons_of_mem _ hk0seen)
          · intro kv hkv hk
            rcases List.mem_cons.mp hkv with he | hr
            · subst he; simp at hk
            · exact hcv kv hr hk
        · rintro ⟨ha, hnd, hns, hcv⟩
          rw [List.map_cons, List.nodup_cons] at hnd
          refine ⟨fun kv hkv => ha kv (List.mem_cons_of_mem _ hkv), hnd.2, ?_,
            fun kv hkv hk => hcv kv (List.mem_cons_of_mem _ hkv) hk⟩
          intro k0 hk0
          simp only [List.mem_cons, not_or]
          refine ⟨?_, hns k0 (List.mem_cons_of_mem _ hk0)⟩
          intro he
          exact hnd.1 (he ▸ hk0)
      · by_cases h2 : k = "mappedBy"
        · subst h2
          rw [if_neg h1, if_pos rfl, ih]
          constructor
          · rintro ⟨ha, hnd, hns, hcv⟩
            refine ⟨?_, ?_, ?_, ?_⟩
            · intro kv hkv
              rcases List.mem_cons.mp hkv with he | hr
              · rw [he]; right; left; rfl
              · exact ha kv hr
            · rw [List.map_cons, List.nodup_cons]
              refine ⟨?_, hnd⟩
              intro hmem
              exact (hns _ hmem) (List.mem_cons_self _ _)
            · intro k0 hk0
              rcases List.mem_cons.mp hk0 with he | hr
              · rw [he]; exact hseen
              · intro hk0seen
                exact (hns k0 hr) (List.mem_cons_of_mem _ hk0seen)
            · intro kv hkv hk
              rcases List.mem_cons.mp hkv with he | hr
              · subst he; simp at hk
              · exact hcv kv hr hk
          · rintro ⟨ha, hnd, hns, hcv⟩
            rw [List.map_cons, List.nodup_cons] at hnd
            refine ⟨fun kv hkv => ha kv (List.mem_cons_of_mem _ hkv), hnd.2, ?_,
              fun kv hkv hk => hcv kv (List.mem_cons_of_mem _ hkv) hk⟩
            intro k0 hk0
            simp only [List.mem_cons, not_or]
            refine ⟨?_, hns k0 (List.mem_cons_of_mem _ hk0)⟩
            intro he
            exact hnd.1 (he ▸ hk0)
        · by_cases h3 : k = "cascade"
          · subst h3
            rw [if_neg h1, if_neg h2, if_pos rfl]
            cases hcv0 : parseCascadeVal v with
            | none =>
              simp only [isOkE]
              constructor
              · intro hh; cases hh
              · rintro ⟨-, -, -, hcv⟩
                have := hcv ("cascade", v) (List.mem_cons_self _ _) rfl
                rw [hcv0] at this
                cases this
            | some c =>
              rw [ih]
              constructor
              · rintro ⟨ha, hnd, hns, hcv⟩
                refine ⟨?_, ?_, ?_, ?_⟩
                · intro kv hkv
                  rcases List.mem_cons.mp hkv with he | hr
                  · rw [he]; right; right; rfl
                  · exact ha kv hr
                · rw [List.map_cons, List.nodup_cons]
                  refine ⟨?_, hnd⟩
                  intro hmem
                  exact (hns _ hmem) (List.mem_cons_self _ _)
                · intro k0 hk0
                  rcases List.mem_cons.mp hk0 with he | hr
                  · rw [he]; exact hseen
                  · intro hk0seen
                    exact (hns k0 hr) (List.mem_cons_of_mem _ hk0seen)
                · intro kv hkv hk
                  rcases List.mem_cons.mp hkv with he | hr
                  · subst he; simp [hcv0]
                  · exact hcv kv hr hk
              · rintro ⟨ha, hnd, hns, hcv⟩
                rw [List.map_cons, List.nodup_cons] at hnd
                refine ⟨fun kv hkv => ha kv (List.mem_cons_of_mem _ hkv), hnd.2, ?_,
                  fun kv hkv hk => hcv kv (List.mem_cons_of_mem _ hkv) hk⟩
                intro k0 hk0
                simp only [List.mem_cons, not_or]
                refine ⟨?_, hns k0 (List.mem_cons_of_mem _ hk0)⟩
                intro he
                exact hnd.1 (he ▸ hk0)
          · rw [if_neg h1, if_neg h2, if_neg h3]
            simp only [isOkE]
            constructor
            · intro hh; cases hh
            · rintro ⟨ha, -, -, -⟩
              rcases ha (k, v) (List.mem_cons_self _ _) with he | he | he <;> exact absurd he (by assumption)

theorem applyKVs_target (kvs : List (String × String)) :
    ∀ (seen : List String) (dr d : TagDraft), applyKVs kvs seen dr = Except.ok d →
      (d.target.isSome = true ↔
        (dr.target.isSome = true ∨ "targetDocument" ∈ kvs.map Prod.fst)) := by
  induction kvs with
  | nil =>
    intro seen dr d hok
    cases hok
    simp
  | cons kv rest ih =>
    intro seen dr d hok
    obtain ⟨k, v⟩ := kv
    rw [applyKVs] at hok
    by_cases hseen : k ∈ seen
    · rw [if_pos hseen] at hok; cases hok
    rw [if_neg hseen] at hok
    by_cases h1 : k = "targetDocument"
    · subst h1
      rw [if_pos rfl] at hok
      have := ih _ _ _ hok
      simp only [Option.isSome_some] at this
      simp [this]
    · by_cases h2 : k = "mappedBy"
      · subst h2
        rw [if_neg h1, if_pos rfl] at hok
        have := ih _ _ _ hok
        rw [this]
        simp [h1, Ne.symm h1]
      · by_cases h3 : k = "cascade"
        · subst h3
          rw [if_neg h1, if_neg h2, if_pos rfl] at hok
          cases hcv : parseCascadeVal v with
          | none => rw [hcv] at hok; cases hok
          | some c =>
            rw [hcv] at hok
            have := ih _ _ _ hok
            rw [this]
            simp [h1, Ne.symm h1]
        · rw [if_neg h1, if_neg h2, if_neg h3] at hok; cases hok

theorem finishDescriptor_ok_iff (k : RelKind) (kvs : List (String × String)) :
    isOkE (finishDescriptor k kvs) = true ↔
      ((∀ kv ∈ kvs, kv.1 = "targetDocument" ∨ kv.1 = "mappedBy" ∨ kv.1 = "cascade")
       ∧ (kvs.map Prod.fst).Nodup
       ∧ "targetDocument" ∈ kvs.map Prod.fst
       ∧ (∀ kv ∈ kvs, kv.1 = "cascade" →
           goToLower kv.2 = "persist" ∨ goToLower kv.2 = "remove" ∨ goToLower kv.2 = "all")) := by
  have hiff := applyKVs_ok_iff kvs [] emptyDraft
  rw [finishDescriptor]
  cases hap : applyKVs kvs [] emptyDraft with
  | error e =>
    rw [hap] at hiff
    simp only [isOkE] at hiff ⊢
    constructor
    · intro hh; cases hh
    · rintro ⟨ha, hnd, hmem, hcv⟩
      have hfalse := hiff.mpr
        ⟨ha, hnd, by simp, fun kv hkv hk => (parseCascadeVal_isSome kv.2).mpr (hcv kv hkv hk)⟩
      cases hfalse
  | ok d =>
    rw [hap] at hiff
    have htgt := applyKVs_target kvs [] emptyDraft d hap
    have hconds := hiff.mp rfl
    obtain ⟨tgt, mb, cp, cr⟩ := d
    cases tgt with
    | none =>
      have hnot : "targetDocument" ∉ kvs.map Prod.fst := by
        intro hmem
        have hsome := htgt.mpr (Or.inr hmem)
        simp at hsome
      simp only [isOkE]
      constructor
      · intro hh; cases hh
      · rintro ⟨-, -, hmem, -⟩
        exact absurd hmem hnot
    | some t =>
      simp only [isOkE]
      constructor
      · rintro -
        refine ⟨hconds.1, hconds.2.1, ?_,
          fun kv hkv hk => (parseCascadeVal_isSome kv.2).mp (hconds.2.2.2 kv hkv hk)⟩
        have hsome : (TagDraft.mk (some t) mb cp cr).target.isSome = true := rfl
        rcases htgt.mp hsome with hfalse | hmem
        · simp [emptyDraft] at hfalse
        · exact hmem
      · rintro -
        trivial

/-- Claim C7: the relationship tag reader succeeds exactly on tags whose kind
is `referenceOne` or `referenceMany`, whose keys all lie among
`targetDocument`, `mappedBy`, `cascade` with no duplicates, with
`targetDocument` present, and whose `cascade` values are `persist`, `remove`
or `all` (matched case-insensitively: the source tests register
`cascade:Persist` and `cascade:all`); so an unknown key, a duplicate key and
a missing `targetDocument` each yield an error. -/
theorem c7_tag_reader (kind : String) (kvs : List (String × String)) :
    isOkE (buildDescriptor kind kvs) = true ↔
      ((kind = "referenceOne" ∨ kind = "referenceMany")
       ∧ (∀ kv ∈ kvs, kv.1 = "targetDocument" ∨ kv.1 = "mappedBy" ∨ kv.1 = "cascade")
       ∧ (kvs.map Prod.fst).Nodup
       ∧ "targetDocument" ∈ kvs.map Prod.fst
       ∧ (∀ kv ∈ kvs, kv.1 = "cascade" →
           goToLower kv.2 = "persist" ∨ goToLower kv.2 = "remove" ∨ goToLower kv.2 = "all")) := by
  rw [buildDescriptor]
  by_cases hk1 : kind = "referenceOne"
  · rw [if_pos hk1, finishDescriptor_ok_iff]
    simp [hk1]
  · by_cases hk2 : kind = "referenceMany"
    · rw [if_neg hk1, if_pos hk2, finishDescriptor_ok_iff]
      simp [hk2]
    · rw [if_neg hk1, if_neg hk2]
      simp only [isOkE]
      constructor
      · intro hh; cases hh
      · rintro ⟨he | he, -⟩ <;> exact absurd he (by assumption)

/-! #### Claim C3 -/

set_option maxRecDepth 40000 in
/-- Claim C3: remove cascades exactly along the owning relationships whose
cascade includes remove.  In scenario 2 (`SubTestDocumentManager_Remove`),
after `Remove(user); Flush()` the user (id 101) and the post (id 1,
`cascade:all` on `Posts`) are NotFound, while the role (id 2,
`cascade:Persist` only on `Role`) is still found. -/
theorem c3_remove_cascade :
    isNotFound (FindID scenario2Removed "User" 101).2 = true
    ∧ isNotFound (FindID scenario2Removed "Post" 1).2 = true
    ∧ isFound (FindID scenario2Removed "Role" 2).2 = true := by
  decide

/-! #### Claim C5 -/

set_option maxRecDepth 40000 in
/-- Counterexample to claim C5 as stated: in scenario 5 (`Example`), after
`FindBy({Title:"MongoDB"}); Remove(articles[0]); Flush()`,
`FindOne({Name:"programming"})` does *not* return the NotFound sentinel —
the `Tags` relationship's cascade is `Persist` only, so under the spec's
cascade-on-remove rule (section 4.3) removal does not propagate to the
shared tag. -/
theorem c5_counterexample :
    isNotFound (FindOne scenario5Removed "Tag" [("Name", DocVal.str "programming")]).2 = false := by
  decide

set_option maxRecDepth 40000 in
/-- Claim C5 amended: removing the `"MongoDB"` article removes only the
article itself (id 5 becomes NotFound); `FindOne({Name:"programming"})`
still succeeds and returns the same managed shared tag entity (handle 2),
because `cascade:Persist` on `Tags` does not include remove. -/
theorem c5_shared_tag_survives :
    foundHandle (FindOne scenario5Removed "Tag" [("Name", DocVal.str "programming")]).2 = some 2
    ∧ entityScalar scenario5Removed 2 "Name" = some "programming"
    ∧ isNotFound (FindID scenario5Removed "Article" 5).2 = true := by
  decide

/-! #### Claim C6 -/

theorem alist_append_split {κ : Type} [DecidableEq κ] {α : Type}
    (l1 l2 : List (κ × α)) (k : κ) :
    alist (l1 ++ l2) k =
      match alist l1 k with
      | some v => some v
      | none => alist l2 k := by
  induction l1 with
  | nil => rfl
  | cons p rest ih =>
    by_cases hk : k = p.1
    · simp [alist, hk]
    · simp [alist, hk, ih]

/-- Claim C6: a scalar field without an explicit storage-name override is
stored under its declared name, character for character: its storage key
equals the declared name, and the serialized document carries the field's
value under that key (filters being passed through to the store unchanged,
the same key is what queries use). -/
theorem c6_storage_key_verbatim (cat : Catalog) (arena : List (String × EntityVal))
    (T : String) (e : EntityVal) (meta : TypeMeta) (f : FieldMeta)
    (hcat : alist cat T = some meta)
    (hf : f ∈ meta.scalarFields)
    (hnone : f.storageName = none)
    (hnd : (meta.scalarFields.map storageKey).Nodup) :
    storageKey f = f.name
    ∧ alist (serializeEntity cat arena T e).fields f.name
        = some (DocVal.str ((alist e.scalars f.name).getD "")) := by
  have hkey : storageKey f = f.name := by
    rw [storageKey, hnone]
  refine ⟨hkey, ?_⟩
  rw [serializeEntity, hcat]
  rw [alist_append_split]
  have hl1 : alist
      (meta.scalarFields.map (fun g => (storageKey g, DocVal.str ((alist e.scalars g.name).getD ""))))
      f.name = some (DocVal.str ((alist e.scalars f.name).getD "")) := by
    apply alist_eq_of_mem
    · exact List.mem_map.mpr ⟨f, hf, by rw [hkey]⟩
    · have he : (Prod.fst ∘ fun g : FieldMeta =>
          (storageKey g, DocVal.str ((alist e.scalars g.name).getD ""))) = storageKey := rfl
      rw [List.map_map, he]
      exact hnd
  rw [hl1]

/-- Closed witness for claim C6's theorem at the `Name` field of `User`
(declared without a storage-name override) and the scenario-2 user. -/
theorem c6_storage_key_verbatim_witness :
    storageKey ⟨"Name", none⟩ = "Name"
    ∧ alist (serializeEntity [("User", userMeta), ("Post", postMeta), ("Role", roleMeta)]
        [] "User" userEntity).fields "Name" = some (DocVal.str "John") := by
  have h := c6_storage_key_verbatim [("User", userMeta), ("Post", postMeta), ("Role", roleMeta)]
    [] "User" userEntity userMeta ⟨"Name", none⟩ (by decide) (by decide) rfl (by decide)
  exact ⟨h.1, h.2⟩

/-! #### Claim C4 -/

theorem alist_cons_preserve {κ : Type} [DecidableEq κ] {α : Type}
    (m : List (κ × α)) (k0 k : κ) (v0 h0 : α)
    (hk : alist m k = some h0) (hnone : alist m k0 = none) :
    alist ((k0, v0) :: m) k = some h0 := by
  have hne : k ≠ k0 := by
    rintro rfl
    rw [hk] at hnone
    cases hnone
  simp [alist, hne, hk]

theorem updateRefs_map (s : Session) (h : Handle) (refs : List (String × RefVal)) :
    (updateRefs s h refs).identityMap = s.identityMap := by
  rw [updateRefs]
  cases s.arena.get? h with
  | some te => rfl
  | none => rfl

/-- The identity map only grows along any hydration path: a key already
mapping to an entity keeps mapping to that entity (spec section 4.5, insert
is exclusive). -/
theorem hydrate_map_mono : ∀ fuel : Nat,
    (∀ s T d k h0, alist s.identityMap k = some h0 →
      alist (hydrateDoc fuel s T d).1.identityMap k = some h0)
    ∧ (∀ s d frs k h0, alist s.identityMap k = some h0 →
      alist (resolveRels fuel s d frs).1.identityMap k = some h0)
    ∧ (∀ s d fname rd k h0, alist s.identityMap k = some h0 →
      alist (resolveRel fuel s d fname rd).1.identityMap k = some h0)
    ∧ (∀ s T o k h0, alist s.identityMap k = some h0 →
      alist (resolveOid fuel s T o).1.identityMap k = some h0)
    ∧ (∀ s T os k h0, alist s.identityMap k = some h0 →
      alist (resolveOids fuel s T os).1.identityMap k = some h0)
    ∧ (∀ s T ds k h0, alist s.identityMap k = some h0 →
      alist (hydrateList fuel s T ds).1.identityMap k = some h0) := by
  intro fuel
  induction fuel with
  | zero =>
    refine ⟨?_, ?_, ?_, ?_, ?_, ?_⟩
    · intro s T d k h0 hk; exact hk
    · intro s d frs k h0 hk; exact hk
    · intro s d fname rd k h0 hk; exact hk
    · intro s T o k h0 hk; exact hk
    · intro s T os k h0 hk; exact hk
    · intro s T ds k h0 hk; exact hk
  | succ fuel ih =>
    obtain ⟨ihDoc, ihRels, ihRel, ihOid, ihOids, ihList⟩ := ih
    refine ⟨?_, ?_, ?_, ?_, ?_, ?_⟩
    · intro s T d k h0 hk
      simp only [hydrateDoc]
      split
      · exact hk
      · rename_i hm
        simp only [updateRefs_map]
        apply ihRels
        exact alist_cons_preserve s.identityMap (T, d.id) k _ h0 hk hm
    · intro s d frs k h0 hk
      cases frs with
      | nil => exact hk
      | cons fr rest =>
        simp only [resolveRels]
        exact ihRels _ _ _ _ _ (ihRel _ _ _ _ _ _ hk)
    · intro s d fname rd k h0 hk
      simp only [resolveRel]
      repeat' split
      all_goals
        first
          | exact hk
          | exact ihOid _ _ _ _ _ hk
          | exact ihOids _ _ _ _ _ hk
          | exact ihList _ _ _ _ _ hk
    · intro s T o k h0 hk
      simp only [resolveOid]
      repeat' split
      all_goals
        first
          | exact hk
          | exact ihDoc _ _ _ _ _ hk
    · intro s T os k h0 hk
      cases os with
      | nil => exact hk
      | cons o rest =>
        simp only [resolveOids]
        exact ihOids _ _ _ _ _ (ihOid _ _ _ _ _ hk)
    · intro s T ds k h0 hk
      cases ds with
      | nil => exact hk
      | cons d rest =>
        simp only [hydrateList]
        exact ihList _ _ _ _ _ (ihDoc _ _ _ _ _ hk)

/-- Hydrating a document leaves its `(type, _id)` key mapping to the handle
the hydration returned. -/
theorem hydrateDoc_registers (fuel : Nat) (s : Session) (T : String) (d : Doc)
    (hfuel : 1 ≤ fuel) :
    alist (hydrateDoc fuel s T d).1.identityMap (T, d.id)
      = some (hydrateDoc fuel s T d).2 := by
  obtain ⟨f, rfl⟩ : ∃ f, fuel = f + 1 := ⟨fuel - 1, by omega⟩
  rw [hydrateDoc]
  cases hm : alist s.identityMap (T, d.id) with
  | some h => exact hm
  | none =>
    simp only [updateRefs_map]
    apply (hydrate_map_mono f).2.1
    simp [alist]

/-- Claim C4: within one session, hydrating the same `(type, identifier)`
pair twice returns the same in-memory entity (the same handle, hence pointer
identity), and the second hydration leaves the session untouched — whether
the two hydrations come from `Find*` calls, from two different referring
documents, or from an inverse-side back-reference, since every one of those
paths goes through `hydrateDoc` and the identity map. -/
theorem c4_identity_map (f1 f2 : Nat) (s : Session) (T : String) (d d2 : Doc)
    (hf1 : 1 ≤ f1) (hf2 : 1 ≤ f2) (hid : d2.id = d.id) :
    (hydrateDoc f2 (hydrateDoc f1 s T d).1 T d2).2 = (hydrateDoc f1 s T d).2
    ∧ (hydrateDoc f2 (hydrateDoc f1 s T d).1 T d2).1 = (hydrateDoc f1 s T d).1 := by
  obtain ⟨g2, rfl⟩ : ∃ g, f2 = g + 1 := ⟨f2 - 1, by omega⟩
  have hreg := hydrateDoc_registers f1 s T d hf1
  rw [hydrateDoc, hid, hreg]
  exact ⟨rfl, rfl⟩

/-- Closed witness for claim C4's theorem: hydrate the stored document of
`hydrSession` twice; the same handle 0 comes back and the session is
unchanged. -/
theorem c4_identity_map_witness :
    (hydrateDoc 9 (hydrateDoc 9 hydrSession "Test" hydrDoc).1 "Test" hydrDoc).2
      = (hydrateDoc 9 hydrSession "Test" hydrDoc).2
    ∧ (hydrateDoc 9 (hydrateDoc 9 hydrSession "Test" hydrDoc).1 "Test" hydrDoc).1
      = (hydrateDoc 9 hydrSession "Test" hydrDoc).1 :=
  c4_identity_map 9 9 hydrSession "Test" hydrDoc hydrDoc (by decide) (by decide) rfl

/-! #### Claims C1 and C2 -/

theorem stageInsert_length (s : Session) (h : Handle) (T : String) (e : EntityVal) :
    (stageInsert s h T e).arena.length = s.arena.length :=
  List.length_set _ _ _

theorem stageInsert_staged (s : Session) (h : Handle) (T : String) (e : EntityVal) :
    h ∈ (stageInsert s h T e).scheduledInsert :=
  List.mem_cons_self _ _

theorem stageInsert_arena_get (s : Session) (h : Handle) (T : String) (e : EntityVal)
    (harena : s.arena.get? h = some (T, e)) :
    (stageInsert s h T e).arena.get? h
      = some (T, { e with id := if e.id = 0 then s.nextOID else e.id }) := by
  show (s.arena.set h _).get? h = _
  rw [List.get?_set_eq, harena]
  rfl

theorem stageInsert_map_self (s : Session) (h : Handle) (T : String) (e : EntityVal)
    (hmap : alist s.identityMap (T, if e.id = 0 then s.nextOID else e.id) = none
          ∨ alist s.identityMap (T, if e.id = 0 then s.nextOID else e.id) = some h) :
    alist (stageInsert s h T e).identityMap (T, if e.id = 0 then s.nextOID else e.id)
      = some h := by
  show alist (match alist s.identityMap (T, if e.id = 0 then s.nextOID else e.id) with
    | none => ((T, if e.id = 0 then s.nextOID else e.id), h) :: s.identityMap
    | some _ => s.identityMap) (T, if e.id = 0 then s.nextOID else e.id) = some h
  rcases hmap with hm | hm <;> rw [hm]
  · simp [alist]
  · exact hm

theorem stageInsert_pres (s : Session) (h : Handle) (T : String) (e : EntityVal)
    (hins : h ∉ s.scheduledInsert) (harena : s.arena.get? h = some (T, e)) :
    PersistPres s (stageInsert s h T e) := by
  refine ⟨rfl, rfl, rfl, stageInsert_length s h T e, ?_, ?_, ?_, ?_⟩
  · intro h0 hh0
    exact List.mem_cons_of_mem _ hh0
  · intro h0 hh0
    have hne : h ≠ h0 := fun he => hins (he ▸ hh0)
    show (s.arena.set h _).get? h0 = s.arena.get? h0
    exact List.get?_set_ne _ _ hne
  · intro i T0 e0 hi
    by_cases hih : i = h
    · subst hih
      rw [harena] at hi
      injection hi with hi2
      injection hi2 with hT he
      rw [← hT, ← he]
      exact ⟨{ e with id := if e.id = 0 then s.nextOID else e.id },
        stageInsert_arena_get s i T e harena, rfl, rfl⟩
    · refine ⟨e0, ?_, rfl, rfl⟩
      show (s.arena.set h _).get? i = some (T0, e0)
      rw [List.get?_set_ne _ _ (fun he => hih he.symm)]
      exact hi
  · intro k h0 hk
    show alist (match alist s.identityMap (T, if e.id = 0 then s.nextOID else e.id) with
      | none => ((T, if e.id = 0 then s.nextOID else e.id), h) :: s.identityMap
      | some _ => s.identityMap) k = some h0
    cases hm : alist s.identityMap (T, if e.id = 0 then s.nextOID else e.id) with
    | none => exact alist_cons_preserve _ _ _ _ _ hk hm
    | some h1 => exact hk

theorem persistPres_refl (s : Session) : PersistPres s s :=
  ⟨rfl, rfl, rfl, rfl, fun _ hh => hh, fun _ _ => rfl,
    fun _ _ e hh => ⟨e, hh, rfl, rfl⟩, fun _ _ hh => hh⟩

theorem persistPres_trans {s1 s2 s3 : Session}
    (p : PersistPres s1 s2) (q : PersistPres s2 s3) : PersistPres s1 s3 := by
  obtain ⟨p1, p2, p3, p4, p5, p6, p7, p8⟩ := p
  obtain ⟨q1, q2, q3, q4, q5, q6, q7, q8⟩ := q
  refine ⟨q1.trans p1, q2.trans p2, q3.trans p3, q4.trans p4, ?_, ?_, ?_, ?_⟩
  · intro h hh
    exact q5 h (p5 h hh)
  · intro h hh
    rw [q6 h (p5 h hh)]
    exact p6 h hh
  · intro i T e hi
    obtain ⟨e2, h2, hs2, hr2⟩ := p7 i T e hi
    obtain ⟨e3, h3, hs3, hr3⟩ := q7 i T e2 h2
    exact ⟨e3, h3, hs3.trans hs2, hr3.trans hr2⟩
  · intro k h0 hk
    exact q8 k h0 (p8 k h0 hk)

theorem persistAll_pres : ∀ (fuel : Nat) (s : Session) (ws : List Handle),
    PersistPres s (persistAll fuel s ws) := by
  intro fuel
  induction fuel with
  | zero => intro s ws; exact persistPres_refl s
  | succ fuel ih =>
    intro s ws
    cases ws with
    | nil => exact persistPres_refl s
    | cons h rest =>
      simp only [persistAll]
      by_cases hins : h ∈ s.scheduledInsert
      · rw [if_pos hins]
        exact ih s rest
      · rw [if_neg hins]
        split
        · exact ih s rest
        · rename_i T e harena
          split
          · exact persistPres_trans (stageInsert_pres s h T e hins harena) (ih _ rest)
          · exact persistPres_trans (stageInsert_pres s h T e hins harena) (ih _ _)

theorem persistAll_stages : ∀ (fuel : Nat) (s : Session) (ws : List Handle) (i : Nat) (h : Handle),
    ws.get? i = some h → i < fuel → h < s.arena.length →
    h ∈ (persistAll fuel s ws).scheduledInsert := by
  intro fuel
  induction fuel with
  | zero => intro s ws i h _ hi _; omega
  | succ fuel ih =>
    intro s ws i h hget hi hlen
    cases ws with
    | nil => cases hget
    | cons h0 rest =>
      simp only [persistAll]
      by_cases hins : h0 ∈ s.scheduledInsert
      · rw [if_pos hins]
        cases i with
        | zero =>
          rw [List.get?_cons_zero] at hget
          injection hget with hh
          rw [← hh]
          exact (persistAll_pres fuel s rest).2.2.2.2.1 h0 hins
        | succ j =>
          rw [List.get?_cons_succ] at hget
          exact ih s rest j h hget (by omega) hlen
      · rw [if_neg hins]
        split
        · rename_i harena
          cases i with
          | zero =>
            rw [List.get?_cons_zero] at hget
            injection hget with hh
            rw [hh] at harena
            rw [List.get?_eq_none] at harena
            exact absurd hlen (Nat.not_lt.mpr harena)
          | succ j =>
            rw [List.get?_cons_succ] at hget
            exact ih s rest j h hget (by omega) hlen
        · rename_i T e harena
          have hstep : h0 ∈ (stageInsert s h0 T e).scheduledInsert := stageInsert_staged s h0 T e
          split
          · cases i with
            | zero =>
              rw [List.get?_cons_zero] at hget
              injection hget with hh
              rw [← hh]
              exact (persistAll_pres fuel _ rest).2.2.2.2.1 h0 hstep
            | succ j =>
              rw [List.get?_cons_succ] at hget
              refine ih _ rest j h hget (by omega) ?_
              rw [stageInsert_length]
              exact hlen
          · rename_i meta hcat
            cases i with
            | zero =>
              rw [List.get?_cons_zero] at hget
              injection hget with hh
              rw [← hh]
              exact (persistAll_pres fuel _ _).2.2.2.2.1 h0 hstep
            | succ j =>
              rw [List.get?_cons_succ] at hget
              have hjlen : j < rest.length := by
                rcases List.get?_eq_some.mp hget with ⟨hlt, -⟩
                exact hlt
              refine ih _ (rest ++ cascadePersistChildren meta e) j h ?_ (by omega) ?_
              · rw [List.get?_append hjlen]
                exact hget
              · rw [stageInsert_length]
                exact hlen

theorem cascade_len_le_bound (s : Session) (h : Handle) (T : String) (e : EntityVal)
    (meta : TypeMeta)
    (harena : s.arena.get? h = some (T, e)) (hcat : alist s.catalog T = some meta) :
    (cascadePersistChildren meta e).length ≤ sessionChildBound s := by
  have hmem : (T, e) ∈ s.arena := List.get?_mem harena
  have h1 : entityChildCount s.catalog T e
      ∈ s.arena.map (fun te => entityChildCount s.catalog te.1 te.2) :=
    List.mem_map.mpr ⟨(T, e), hmem, rfl⟩
  have h2 : entityChildCount s.catalog T e ≤ sessionChildBound s :=
    List.single_le_sum (fun x _ => Nat.zero_le x) _ h1
  simp only [entityChildCount, hcat] at h2
  exact h2

theorem persist_unfold (s : Session) (h : Handle) (T : String) (e : EntityVal)
    (meta : TypeMeta)
    (harena : s.arena.get? h = some (T, e))
    (hcat : alist s.catalog T = some meta)
    (hins : h ∉ s.scheduledInsert) :
    Persist s h = persistAll (sessionChildBound s + 1) (stageInsert s h T e)
      (cascadePersistChildren meta e) := by
  have hsucc : sessionChildBound s + 2 = Nat.succ (sessionChildBound s + 1) := rfl
  rw [Persist, hsucc]
  simp only [persistAll]
  rw [if_neg hins]
  simp only [harena, hcat]
  rw [List.nil_append]

theorem mem_cascade_foldr (frs : List (String × RelationshipDescriptor)) (e : EntityVal)
    (fname : String) (rd : RelationshipDescriptor)
    (hrel : (fname, rd) ∈ frs) (hown : rd.mappedBy = none) (hcas : rd.cascadePersist = true)
    (hc : Handle) (hmem : hc ∈ childHandles (alist e.refs fname)) :
    hc ∈ frs.foldr
      (fun fr acc =>
        if fr.2.mappedBy.isNone && fr.2.cascadePersist then
          childHandles (alist e.refs fr.1) ++ acc
        else acc) [] := by
  induction frs with
  | nil => cases hrel
  | cons fr rest ih =>
    rw [List.foldr_cons]
    rcases List.mem_cons.mp hrel with he | hr
    · rw [← he]
      simp only [hown, hcas, Option.isNone_none, Bool.and_self, if_true]
      exact List.mem_append_left _ hmem
    · by_cases hcond : (fr.2.mappedBy.isNone && fr.2.cascadePersist) = true
      · simp only [hcond, if_true]
        exact List.mem_append_right _ (ih hr)
      · simp only [hcond, if_false]
        exact ih hr

theorem mem_cascadeChildren (meta : TypeMeta) (e : EntityVal) (fname : String)
    (rd : RelationshipDescriptor) (hrel : (fname, rd) ∈ meta.relationships)
    (hown : rd.mappedBy = none) (hcas : rd.cascadePersist = true)
    (hc : Handle) (hmem : hc ∈ childHandles (alist e.refs fname)) :
    hc ∈ cascadePersistChildren meta e :=
  mem_cascade_foldr meta.relationships e fname rd hrel hown hcas hc hmem

theorem collOf_setColl_self (st : Store) (T : String) (docs : List Doc) :
    collOf (setColl st T docs) T = docs := by
  simp [collOf, setColl, alist]

theorem alist_filter_ne {α : Type} (st : List (String × α)) (T T0 : String) (hne : T ≠ T0) :
    alist (st.filter (fun p => p.1 ≠ T0)) T = alist st T := by
  induction st with
  | nil => rfl
  | cons p rest ih =>
    have ih2 : alist (rest.filter (fun p => !decide (p.1 = T0))) T = alist rest T := by
      simpa using ih
    by_cases hp : p.1 = T0
    · simp [List.filter_cons, hp, alist, hne, ih2]
    · simp [List.filter_cons, hp, alist, ih2]

theorem collOf_setColl_ne (st : Store) (T T0 : String) (docs : List Doc) (hne : T ≠ T0) :
    collOf (setColl st T0 docs) T = collOf st T := by
  rw [collOf, setColl]
  simp only [alist, if_neg hne]
  rw [alist_filter_ne st T T0 hne]
  rfl

theorem collOf_storePut_self (st : Store) (T : String) (d : Doc) :
    collOf (storePut st T d) T = (collOf st T).filter (fun d0 => d0.id ≠ d.id) ++ [d] :=
  collOf_setColl_self st T _

theorem collOf_storePut_ne (st : Store) (T T0 : String) (d : Doc) (hne : T ≠ T0) :
    collOf (storePut st T0 d) T = collOf st T :=
  collOf_setColl_ne st T T0 _ hne

theorem storePut_preserves_doc (st : Store) (T T0 : String) (d0 : Doc) (o : OID)
    (hex : ∃ d ∈ collOf st T, d.id = o) :
    ∃ d ∈ collOf (storePut st T0 d0) T, d.id = o := by
  by_cases hTT : T = T0
  · subst hTT
    rw [collOf_storePut_self]
    by_cases ho : o = d0.id
    · exact ⟨d0, List.mem_append_right _ (List.mem_singleton_self d0), ho.symm⟩
    · obtain ⟨d, hd, hid⟩ := hex
      refine ⟨d, List.mem_append_left _ ?_, hid⟩
      rw [List.mem_filter]
      refine ⟨hd, ?_⟩
      simp only [ne_eq, decide_eq_true_eq]
      rw [hid]
      exact fun he => ho he
  · rw [collOf_storePut_ne st T T0 _ hTT]
    exact hex

theorem flushInserts_cons (s : Session) (h0 : Handle) (hs : List Handle) (st : Store) :
    flushInserts s (h0 :: hs) st =
      match s.arena.get? h0 with
      | some (T, e) => storePut (flushInserts s hs st) T (serializeEntity s.catalog s.arena T e)
      | none => flushInserts s hs st := rfl

theorem flushInserts_has_doc (s : Session) (hs : List Handle) (st : Store) (h : Handle)
    (T : String) (e : EntityVal) (hmem : h ∈ hs) (harena : s.arena.get? h = some (T, e)) :
    ∃ d ∈ collOf (flushInserts s hs st) T, d.id = e.id := by
  induction hs with
  | nil => cases hmem
  | cons h0 rest ih =>
    rw [flushInserts_cons]
    rcases List.mem_cons.mp hmem with he | hr
    · subst he
      rw [harena]
      rw [collOf_storePut_self]
      refine ⟨serializeEntity s.catalog s.arena T e, List.mem_append_right _ ?_, ?_⟩
      · exact List.mem_singleton_self _
      · rw [serializeEntity]
        cases alist s.catalog T <;> rfl
    · have hin := ih hr
      cases h0a : s.arena.get? h0 with
      | none => exact hin
      | some te =>
        obtain ⟨T0, e0⟩ := te
        exact storePut_preserves_doc _ T T0 _ e.id hin

theorem findFuel_pos (s : Session) : 1 ≤ findFuel s := by
  rw [findFuel]
  omega

theorem flush_found (sP : Session) (h : Handle) (T : String) (e : EntityVal)
    (hrem : sP.scheduledRemove = [])
    (hins : h ∈ sP.scheduledInsert)
    (harena : sP.arena.get? h = some (T, e))
    (hcat : (alist sP.catalog T).isSome = true) :
    isFound (FindID (Flush sP) T e.id).2 = true := by
  have hstore : ∃ d ∈ collOf (Flush sP).store T, d.id = e.id := by
    rw [Flush, hrem]
    exact flushInserts_has_doc sP sP.scheduledInsert sP.store h T e hins harena
  obtain ⟨m, hm⟩ := Option.isSome_iff_exists.mp hcat
  rw [FindID]
  rw [show alist (Flush sP).catalog T = some m from hm]
  obtain ⟨d, hd, hid⟩ := hstore
  have hfind : ((collOf (Flush sP).store T).find? (fun d0 => d0.id == e.id)).isSome = true := by
    rw [List.find?_isSome]
    exact ⟨d, hd, by simp [hid]⟩
  obtain ⟨d2, hd2⟩ := Option.isSome_iff_exists.mp hfind
  rw [hd2]
  rfl

/-- Claim C1: for a registered entity, `Persist(e); Flush(); FindID(e.id)` in
the same manager succeeds and returns the very entity `e` (the identity map
hands back the managed handle), whose scalar fields therefore all equal
those of `e`; the arena entry at that handle keeps `e`'s scalar fields, with
only the identifier possibly assigned by `Persist`. -/
theorem c1_persist_flush_findid (s : Session) (h : Handle) (T : String) (e : EntityVal)
    (meta : TypeMeta)
    (harena : s.arena.get? h = some (T, e))
    (hcat : alist s.catalog T = some meta)
    (hins : h ∉ s.scheduledInsert)
    (hrem : s.scheduledRemove = [])
    (hmap : alist s.identityMap (T, if e.id = 0 then s.nextOID else e.id) = none
          ∨ alist s.identityMap (T, if e.id = 0 then s.nextOID else e.id) = some h) :
    (FindID (Flush (Persist s h)) T (if e.id = 0 then s.nextOID else e.id)).2 = Except.ok h
    ∧ ∃ e2, (Flush (Persist s h)).arena.get? h = some (T, e2)
        ∧ e2.scalars = e.scalars
        ∧ e2.id = (if e.id = 0 then s.nextOID else e.id) := by
  rw [persist_unfold s h T e meta harena hcat hins]
  have hpres := persistAll_pres (sessionChildBound s + 1) (stageInsert s h T e)
    (cascadePersistChildren meta e)
  obtain ⟨hc1, hc2, hc3, hc4, hc5, hc6, hc7, hc8⟩ := hpres
  have hstaged1 : h ∈ (stageInsert s h T e).scheduledInsert := stageInsert_staged s h T e
  have hstagedP := hc5 h hstaged1
  have harenaP : (persistAll (sessionChildBound s + 1) (stageInsert s h T e)
      (cascadePersistChildren meta e)).arena.get? h
        = some (T, { e with id := if e.id = 0 then s.nextOID else e.id }) := by
    rw [hc6 h hstaged1]
    exact stageInsert_arena_get s h T e harena
  have hmapP : alist (persistAll (sessionChildBound s + 1) (stageInsert s h T e)
      (cascadePersistChildren meta e)).identityMap
        (T, if e.id = 0 then s.nextOID else e.id) = some h :=
    hc8 _ _ (stageInsert_map_self s h T e hmap)
  have hremP : (persistAll (sessionChildBound s + 1) (stageInsert s h T e)
      (cascadePersistChildren meta e)).scheduledRemove = [] := by
    rw [hc3]
    exact hrem
  have hcatP : alist (persistAll (sessionChildBound s + 1) (stageInsert s h T e)
      (cascadePersistChildren meta e)).catalog T = some meta := by
    rw [hc1]
    exact hcat
  set sP := persistAll (sessionChildBound s + 1) (stageInsert s h T e)
    (cascadePersistChildren meta e) with hsP
  have hfl_map : (Flush sP).identityMap = sP.identityMap := by
    rw [Flush, hremP]
    rfl
  have hdoc : ∃ d ∈ collOf (Flush sP).store T, d.id = if e.id = 0 then s.nextOID else e.id := by
    rw [Flush, hremP]
    exact flushInserts_has_doc sP sP.scheduledInsert sP.store h T _ hstagedP harenaP
  constructor
  · rw [FindID]
    rw [show alist (Flush sP).catalog T = some meta from hcatP]
    obtain ⟨d, hd, hid⟩ := hdoc
    have hfind : ((collOf (Flush sP).store T).find?
        (fun d0 => d0.id == if e.id = 0 then s.nextOID else e.id)).isSome = true := by
      rw [List.find?_isSome]
      exact ⟨d, hd, by simp [hid]⟩
    obtain ⟨d2, hd2⟩ := Option.isSome_iff_exists.mp hfind
    rw [hd2]
    have hd2id : d2.id = if e.id = 0 then s.nextOID else e.id := by
      have hp := List.find?_some hd2
      simpa using hp
    have hmapF : alist (Flush sP).identityMap (T, d2.id) = some h := by
      rw [hfl_map, hd2id]
      exact hmapP
    obtain ⟨g, hg⟩ : ∃ g, findFuel (Flush sP) = Nat.succ g :=
      ⟨findFuel (Flush sP) - 1, by have := findFuel_pos (Flush sP); omega⟩
    rw [hg]
    simp only [hydrateDoc]
    rw [hmapF]
  · exact ⟨{ e with id := if e.id = 0 then s.nextOID else e.id },
      harenaP, rfl, rfl⟩

/-- Claim C2: for an owning relationship whose cascade includes persist
(`referenceOne` or `referenceMany` alike — `childHandles` covers both),
persisting only the parent and flushing makes the parent findable and every
referenced child (with a valid handle of a registered type) findable, with
no explicit `Persist` call on any child. -/
theorem c2_cascade_persist_findable (s : Session) (h : Handle) (T : String) (e : EntityVal)
    (meta : TypeMeta) (fname : String) (rd : RelationshipDescriptor)
    (harena : s.arena.get? h = some (T, e))
    (hcat : alist s.catalog T = some meta)
    (hins : h ∉ s.scheduledInsert)
    (hrem : s.scheduledRemove = [])
    (hrel : (fname, rd) ∈ meta.relationships)
    (hown : rd.mappedBy = none)
    (hcas : rd.cascadePersist = true) :
    isFound (FindID (Flush (Persist s h)) T (if e.id = 0 then s.nextOID else e.id)).2 = true
    ∧ ∀ hc ∈ childHandles (alist e.refs fname),
        (∃ Tc ec, s.arena.get? hc = some (Tc, ec) ∧ (alist s.catalog Tc).isSome = true) →
        ∃ Tc ec2, (Flush (Persist s h)).arena.get? hc = some (Tc, ec2)
          ∧ isFound (FindID (Flush (Persist s h)) Tc ec2.id).2 = true := by
  rw [persist_unfold s h T e meta harena hcat hins]
  set sP := persistAll (sessionChildBound s + 1) (stageInsert s h T e)
    (cascadePersistChildren meta e) with hsP
  have hpresI := stageInsert_pres s h T e hins harena
  have hpresP := persistAll_pres (sessionChildBound s + 1) (stageInsert s h T e)
    (cascadePersistChildren meta e)
  have hpres := persistPres_trans hpresI hpresP
  obtain ⟨hc1, hc2, hc3, hc4, hc5, hc6, hc7, hc8⟩ := hpres
  have hstaged1 : h ∈ (stageInsert s h T e).scheduledInsert := stageInsert_staged s h T e
  have hstagedP : h ∈ sP.scheduledInsert := hpresP.2.2.2.2.1 h hstaged1
  have harenaP : sP.arena.get? h
      = some (T, { e with id := if e.id = 0 then s.nextOID else e.id }) := by
    rw [hpresP.2.2.2.2.2.1 h hstaged1]
    exact stageInsert_arena_get s h T e harena
  have hremP : sP.scheduledRemove = [] := by
    rw [hc3]
    exact hrem
  have hcatP : sP.catalog = s.catalog := hc1
  constructor
  · exact flush_found sP h T { e with id := if e.id = 0 then s.nextOID else e.id }
      hremP hstagedP harenaP (by rw [hcatP, hcat]; rfl)
  · intro hc hmemc hvalid
    obtain ⟨Tc, ec, harenac, hcatc⟩ := hvalid
    have hmemch : hc ∈ cascadePersistChildren meta e :=
      mem_cascadeChildren meta e fname rd hrel hown hcas hc hmemc
    obtain ⟨i, hi⟩ := List.get?_of_mem hmemch
    have hilen : i < (cascadePersistChildren meta e).length := by
      rcases List.get?_eq_some.mp hi with ⟨hlt, -⟩
      exact hlt
    have hbound : (cascadePersistChildren meta e).length ≤ sessionChildBound s :=
      cascade_len_le_bound s h T e meta harena hcat
    have hclen : hc < (stageInsert s h T e).arena.length := by
      rw [stageInsert_length]
      by_contra hge
      rw [List.get?_eq_none.mpr (Nat.le_of_not_lt hge)] at harenac
      cases harenac
    have hstagedc : hc ∈ sP.scheduledInsert :=
      persistAll_stages (sessionChildBound s + 1) (stageInsert s h T e)
        (cascadePersistChildren meta e) i hc hi
        (Nat.lt_succ_of_lt (lt_of_lt_of_le hilen hbound)) hclen
    obtain ⟨ec2, harenac2, -, -⟩ := hc7 hc Tc ec harenac
    refine ⟨Tc, ec2, harenac2, ?_⟩
    apply flush_found sP hc Tc ec2 hremP hstagedc harenac2
    rw [hc1]
    exact hcatc

/-- Closed witness for claim C1's theorem: the scenario-2 user (id 101). -/
theorem c1_persist_flush_findid_witness :
    (FindID (Flush (Persist scenario2Start 0)) "User" 101).2 = Except.ok 0
    ∧ ∃ e2, (Flush (Persist scenario2Start 0)).arena.get? 0 = some ("User", e2)
        ∧ e2.scalars = userEntity.scalars ∧ e2.id = 101 := by
  have h := c1_persist_flush_findid scenario2Start 0 "User" userEntity userMeta
    (by decide) (by decide) (by decide) rfl (Or.inl (by decide))
  exact ⟨h.1, h.2⟩

/-- Closed witness for claim C2's theorem: the scenario-2 user with its
`Posts` relationship (`cascade:all`, so its cascade includes persist). -/
theorem c2_cascade_persist_findable_witness :
    isFound (FindID (Flush (Persist scenario2Start 0)) "User" 101).2 = true
    ∧ ∀ hc ∈ childHandles (alist userEntity.refs "Posts"),
        (∃ Tc ec, scenario2Start.arena.get? hc = some (Tc, ec)
          ∧ (alist scenario2Start.catalog Tc).isSome = true) →
        ∃ Tc ec2, (Flush (Persist scenario2Start 0)).arena.get? hc = some (Tc, ec2)
          ∧ isFound (FindID (Flush (Persist scenario2Start 0)) Tc ec2.id).2 = true := by
  have h := c2_cascade_persist_findable scenario2Start 0 "User" userEntity userMeta
    "Posts" (relOf "referenceMany(targetDocument:Post,cascade:all)")
    (by decide) (by decide) (by decide) rfl (by decide) (by decide) (by decide)
  exact ⟨h.1, h.2⟩

end Tiger

